import Mathlib

/-!
Verification of the flaim-eval acceptance/coverage engine.

This file gives a shallow embedding, in Lean 4, of the core data
transformations of the flaim-eval harness:

* the log-event dedup key and per-service merge (src/run.ts: eventKey,
  dedupeEvents, mergeServerLogs);
* expected-worker inference (src/coverage.ts: inferExpectedWorkers,
  getActualWorkers, getMissingWorkers);
* the strict per-worker trace query filter and the log-event normalizer
  (src/artifacts.ts: hasMatchingTrace, hasMatchingRun, dedupeEvents,
  queryWorkerLogsForTrace, parseNumber, toLogEvent);
* the isolation analyzer and the acceptance policy aggregation
  (accept.ts: parseTraceIdsFromMessage, parseRunIdsFromMessage,
  analyzeTraceIsolation, assessTrace, addReason, runCli);
* the re-enrichment window computation (enrich.ts: buildReenrichWindow,
  buildAttemptWindow).

Modelling conventions, used uniformly below:

* JavaScript numbers are modelled as `Int` (all values the embedded code
  manipulates are integral: epoch milliseconds, HTTP statuses, durations,
  counters).  The one numeric comparison where a fraction appears (the
  escalation ratio against 0.2) is modelled with `Rat`; a comment at that
  definition justifies that the rational model agrees with the IEEE-double
  computation of the source on every input.
* JavaScript strings are Lean `String`s.  The default `Array.sort()`
  comparison (UTF-16 code-unit order) is modelled by `lexLe` below
  (code-point order); the two coincide on all strings without
  supplementary-plane characters, which covers every string the harness
  manipulates (service names, trace ids, reason codes).
* `undefined`/absent optional fields are `Option.none`.  Raw telemetry
  fields that the source guards with a runtime `typeof` check are modelled
  with `JsValue` (which can hold a non-string, non-numeric value); fields
  that the source uses directly are modelled at their declared interface
  type.
* `Number(s)` on a string `s` is a host primitive; it is modelled by the
  `numParse` component carried by `JsValue.str` (the finite numeric value
  that JavaScript obtains for the text, when there is one).  The explicit
  guard `value.trim().length > 0` of the source is kept explicit (as
  `hasNonWs`).
* JavaScript objects used as string-keyed maps are association lists in
  key-insertion order; key update keeps the position of the key, key
  insertion appends.  Where a theorem needs the object invariant that keys
  are unique, it carries an explicit `Nodup` hypothesis on the key list.
* Effectful wrappers (HTTP fetch, the file system, `Date.now`) are outside
  the embedding: the embedded functions receive the fetched batches, the
  parsed timestamps, and the formatting functions as arguments.
-/

namespace FlaimEval

/-! ## JavaScript string and collection primitives -/

/-- Code-unit lexicographic order on strings, as used by the default
JavaScript `Array.sort()` comparator (restricted to the basic plane,
where code units and code points agree). -/
def lexLe : List Char → List Char → Bool
  | [], _ => true
  | _ :: _, [] => false
  | a :: as, b :: bs =>
    if a.toNat < b.toNat then true
    else if b.toNat < a.toNat then false
    else lexLe as bs

/-- String comparison for `Array.sort()`. -/
def strLe (a b : String) : Bool :=
  lexLe a.data b.data

/-- The sort relation as a proposition, for use with `List.insertionSort`. -/
def strLeP (a b : String) : Prop :=
  strLe a b = true

instance : DecidableRel strLeP := fun a b => by
  unfold strLeP; infer_instance

/-- `Array.prototype.sort()` with the default comparator on an array of
strings (a stable sort in code-unit order). -/
def sortStrings (l : List String) : List String :=
  List.insertionSort strLeP l

/-- JavaScript `a || b` on two possibly-absent strings: the empty string is
falsy and falls through to the right operand. -/
def jsOrStr (a b : Option String) : Option String :=
  match a with
  | some s => if s = "" then b else some s
  | none => b

/-- JavaScript truthiness of a possibly-absent string. -/
def truthyStr : Option String → Bool
  | some s => s ≠ ""
  | none => false

/-- Whitespace for the purposes of `String.prototype.trim()` (the forms
that occur in the modelled data are ASCII). -/
def isWsChar (c : Char) : Bool :=
  c == ' ' || c == '\t' || c == '\n' || c == '\r'

/-- Models `value.trim().length > 0`: the string has a non-whitespace
character. -/
def hasNonWs (s : String) : Bool :=
  s.data.any (fun c => !(isWsChar c))

/-- Helper for `firstDedup`: drops every string already seen. -/
def firstDedupAux (seen : List String) : List String → List String
  | [] => []
  | s :: rest =>
    if s ∈ seen then firstDedupAux seen rest
    else s :: firstDedupAux (s :: seen) rest

/-- Insertion-order deduplication of a list of strings, keeping the first
occurrence of each element, as obtained from `[...new Set(xs)]`. -/
def firstDedup (l : List String) : List String :=
  firstDedupAux [] l

/-! ## Message-pattern extraction (accept.ts / artifacts.ts)

The source scans free-text log messages with two global regular
expressions and collects the first capture group of every match:

* trace ids: the literal "trace_id=" or the literal sequence
  quote-colon-quote after "trace_id", followed by one or more characters
  from the class letters, digits, underscore, dot, hyphen;
* run ids: the literal "eval=" followed by a greedy run of characters
  from the class letters, digits, colon, dot, hyphen that must end in
  the letter Z (greedy matching backtracks to the last Z of the run).

The scanners below implement exactly the `matchAll` semantics: find the
leftmost match at or after the current position, emit its capture, and
resume immediately after the end of the match.  The fuel argument is the
length of the remaining input; every step consumes at least one
character, so the fuel never runs out on the initial call. -/

/-- The character class of the trace-id capture group. -/
def traceIdChar (c : Char) : Bool :=
  c.isAlphanum || c == '_' || c == '.' || c == '-'

/-- The character class of the run-id capture group (note: no underscore,
but colon; the letter T of the class is subsumed by the letters). -/
def runIdChar (c : Char) : Bool :=
  c.isAlphanum || c == ':' || c == '.' || c == '-'

/-- The literal "trace_id=". -/
def traceLitEq : List Char :=
  "trace_id=".data

/-- The literal: "trace_id" followed by quote, colon, quote. -/
def traceLitJson : List Char :=
  "trace_id\":\"".data

/-- The literal "eval=". -/
def runLit : List Char :=
  "eval=".data

/-- Scanner for the trace-id pattern. -/
def scanTraceIds : Nat → List Char → List String
  | 0, _ => []
  | _ + 1, [] => []
  | fuel + 1, c :: rest =>
    let cs := c :: rest
    if traceLitEq.isPrefixOf cs then
      let after := cs.drop traceLitEq.length
      let cap := after.takeWhile traceIdChar
      if cap.isEmpty then scanTraceIds fuel rest
      else cap.asString :: scanTraceIds fuel (after.drop cap.length)
    else if traceLitJson.isPrefixOf cs then
      let after := cs.drop traceLitJson.length
      let cap := after.takeWhile traceIdChar
      if cap.isEmpty then scanTraceIds fuel rest
      else cap.asString :: scanTraceIds fuel (after.drop cap.length)
    else scanTraceIds fuel rest

/-- The prefix of `m` ending at its last letter Z (empty if there is no Z):
the capture the greedy run-id pattern backtracks to. -/
def takeToLastZ (m : List Char) : List Char :=
  (m.reverse.dropWhile (fun c => c != 'Z')).reverse

/-- Scanner for the run-id pattern.  A successful capture is the maximal
class run cut back to its last Z and must have a class character before
that Z (the regex is one-or-more class characters followed by Z). -/
def scanRunIds : Nat → List Char → List String
  | 0, _ => []
  | _ + 1, [] => []
  | fuel + 1, c :: rest =>
    let cs := c :: rest
    if runLit.isPrefixOf cs then
      let after := cs.drop runLit.length
      let run := after.takeWhile runIdChar
      let cap := takeToLastZ run
      if cap.length < 2 then scanRunIds fuel rest
      else cap.asString :: scanRunIds fuel (after.drop cap.length)
    else scanRunIds fuel rest

/-- accept.ts `parseTraceIdsFromMessage` (an absent or empty message is
falsy and yields no candidates). -/
def parseTraceIdsFromMessage : Option String → List String
  | none => []
  | some s => if s = "" then [] else scanTraceIds s.data.length s.data

/-- `parseRunIdsFromMessage`, identical in accept.ts and artifacts.ts. -/
def parseRunIdsFromMessage : Option String → List String
  | none => []
  | some s => if s = "" then [] else scanRunIds s.data.length s.data

/-! ## Normalized log events and the merge engine (src/run.ts, src/types.ts) -/

/-- types.ts `ServerLogEvent`: the canonical normalized log event. -/
structure ServerLogEvent where
  timestamp : String
  status : Option Int
  wall_time_ms : Int
  message : Option String := none
  service : Option String := none
  phase : Option String := none
  run_id : Option String := none
  trace_id : Option String := none
  correlation_id : Option String := none
  tool : Option String := none
  sport : Option String := none
  league_id : Option String := none
  path : Option String := none
  method : Option String := none
  outcome : Option String := none
  request_id : Option String := none
  trigger : Option String := none
  status_text : Option String := none
  duration_ms : Option Int := none
deriving DecidableEq, Repr

/-- `field || ""` as used inside the dedup key. -/
def optStr (o : Option String) : String :=
  o.getD ""

/-- run.ts `eventKey`: the content-based dedup key, the canonical
encodings of eleven fields joined with a bar. -/
def eventKey (e : ServerLogEvent) : String :=
  String.intercalate "|"
    [ e.timestamp
    , optStr e.service
    , optStr e.phase
    , optStr e.request_id
    , optStr e.trace_id
    , optStr e.run_id
    , optStr e.tool
    , optStr e.message
    , (match e.status with | none => "" | some n => toString n)
    , optStr e.status_text
    , (match e.duration_ms with | none => "" | some n => toString n) ]

/-- Helper for run.ts `dedupeEvents`: `seen` is the set of keys already
emitted. -/
def dedupeEventsAux (seen : List String) : List ServerLogEvent → List ServerLogEvent
  | [] => []
  | e :: rest =>
    if eventKey e ∈ seen then dedupeEventsAux seen rest
    else e :: dedupeEventsAux (eventKey e :: seen) rest

/-- run.ts `dedupeEvents`: keep the first event of every key. -/
def dedupeEventsRun (events : List ServerLogEvent) : List ServerLogEvent :=
  dedupeEventsAux [] events

/-- The set of keys seen after also scanning `l`, mirroring
`dedupeEventsAux`. -/
def seenAfter (seen : List String) : List ServerLogEvent → List String
  | [] => seen
  | e :: rest =>
    seenAfter (if eventKey e ∈ seen then seen else eventKey e :: seen) rest

/-- types.ts `ServerLogs`: a string-keyed object of event lists, in key
insertion order. -/
abbrev ServerLogs : Type :=
  List (String × List ServerLogEvent)

/-- Object key update: replace in place when the key exists, append
otherwise. -/
def setKey (m : ServerLogs) (k : String) (v : List ServerLogEvent) : ServerLogs :=
  match m with
  | [] => [(k, v)]
  | (k₀, v₀) :: rest =>
    if k₀ = k then (k, v) :: rest else (k₀, v₀) :: setKey rest k v

/-- Object key read: the value at the first occurrence of the key. -/
def findVal (m : ServerLogs) (k : String) : Option (List ServerLogEvent) :=
  (m.find? (fun p => p.1 == k)).map (fun p => p.2)

/-- `merged[workerName] || []`. -/
def lookupList (m : ServerLogs) (k : String) : List ServerLogEvent :=
  (findVal m k).getD []

/-- First loop of run.ts `mergeServerLogs`: copy the non-empty entries of
the current mapping. -/
def mergeLoop1 (acc : ServerLogs) : ServerLogs → ServerLogs
  | [] => acc
  | (k, v) :: rest =>
    mergeLoop1 (if v.length > 0 then setKey acc k v else acc) rest

/-- Second loop of run.ts `mergeServerLogs`: for every non-empty incoming
entry, append to the existing list and deduplicate. -/
def mergeLoop2 (acc : ServerLogs) : ServerLogs → ServerLogs
  | [] => acc
  | (k, v) :: rest =>
    mergeLoop2
      (if v.length = 0 then acc
       else setKey acc k (dedupeEventsRun (lookupList acc k ++ v)))
      rest

/-- run.ts `mergeServerLogs`. -/
def mergeServerLogs (current incoming : ServerLogs) : ServerLogs :=
  mergeLoop2 (mergeLoop1 [] current) incoming

/-- Pointwise value of the merge at one service (established by
`lookupList_mergeServerLogs` below): the incoming list, when non-empty,
is appended to the existing one and the result deduplicated; an empty
incoming list leaves the existing list untouched. -/
def mPoint (a b : List ServerLogEvent) : List ServerLogEvent :=
  if b = [] then a else dedupeEventsRun (a ++ b)

/-! ## Raw JavaScript values at typed boundaries -/

/-- A raw JavaScript value at a point where the source performs a runtime
type check.  `str` carries, next to the text, the finite numeric value
that the host primitive `Number(text)` yields for it, when there is one
(`numParse`); this models the host numeric parser, which is otherwise
outside the embedding. -/
inductive JsValue where
  | str (text : String) (numParse : Option Int)
  | num (n : Int)
  | boolV (b : Bool)
  | nullV
deriving DecidableEq, Repr

/-- artifacts.ts `parseNumber`: a finite number is returned as is; a
string with a non-empty trim is given to `Number(...)` and returned when
finite; everything else is `undefined`. -/
def parseNumber : Option JsValue → Option Int
  | some (.num n) => some n
  | some (.str text numParse) => if hasNonWs text then numParse else none
  | _ => none

/-! ## Trace artifacts and expected-worker inference
(src/types.ts, src/coverage.ts) -/

/-- types.ts `CapturedToolCall` (the result fields play no role in the
embedded logic and are omitted). -/
structure CapturedToolCall where
  tool_name : String
  args : List (String × JsValue)
deriving DecidableEq, Repr

/-- types.ts `EnrichmentMetadata`, restricted to the fields the embedded
logic reads. -/
structure EnrichmentMetadata where
  attempts : Nat
  expected_workers : List String
deriving DecidableEq, Repr

/-- types.ts `TraceArtifact`, restricted to the fields the embedded logic
reads (`tool_calls` stands for `llm_response.tool_calls`). -/
structure TraceArtifact where
  run_id : String
  trace_id : String
  scenario_id : String
  tool_calls : List CapturedToolCall
  server_logs : Option ServerLogs
  enrichment : Option EnrichmentMetadata
deriving DecidableEq, Repr

/-- `call.args?.platform`: the value at the platform key. -/
def platformArg (call : CapturedToolCall) : Option JsValue :=
  (call.args.find? (fun p => p.1 == "platform")).map (fun p => p.2)

/-- `call.args?.platform === p` for a string literal `p`. -/
def platformIs (call : CapturedToolCall) (p : String) : Bool :=
  match platformArg call with
  | some (.str text _) => text == p
  | _ => false

/-- coverage.ts `inferExpectedWorkers`: the set builds up in insertion
order (primary ingress, auth, espn, yahoo) and is then sorted. -/
def inferExpectedWorkers (trace : TraceArtifact) : List String :=
  sortStrings
    ("fantasy-mcp" ::
      ((if trace.tool_calls.any (fun call => call.tool_name == "get_user_session")
        then ["auth-worker"] else []) ++
       (if trace.tool_calls.any (fun call => platformIs call "espn")
        then ["espn-client"] else []) ++
       (if trace.tool_calls.any (fun call => platformIs call "yahoo")
        then ["yahoo-client"] else [])))

/-- coverage.ts `getActualWorkers`: the sorted keys of the server-log
object. -/
def getActualWorkers (logs : Option ServerLogs) : List String :=
  sortStrings ((logs.getD []).map (fun p => p.1))

/-- coverage.ts `getMissingWorkers`. -/
def getMissingWorkers (expectedWorkers actualWorkers : List String) : List String :=
  sortStrings (expectedWorkers.filter (fun w => !(actualWorkers.contains w)))

/-! ## The isolation analyzer and the acceptance policy (accept.ts) -/

/-- The candidate trace ids of one event: the structured field when
truthy, plus every id recoverable from the message text (a set, in
insertion order). -/
def eventTraceCandidates (e : ServerLogEvent) : List String :=
  firstDedup
    ((if truthyStr e.trace_id then [optStr e.trace_id] else []) ++
     parseTraceIdsFromMessage e.message)

/-- The candidate run ids of one event, built the same way. -/
def eventRunCandidates (e : ServerLogEvent) : List String :=
  firstDedup
    ((if truthyStr e.run_id then [optStr e.run_id] else []) ++
     parseRunIdsFromMessage e.message)

/-- accept.ts `analyzeTraceIsolation`: one pass over the events,
incrementing the trace-mismatch counter when some trace candidate
differs from the owning trace id, and the run-mismatch counter when some
run candidate differs from the owning run id. -/
def analyzeTraceIsolation (events : List ServerLogEvent)
    (expectedTraceId expectedRunId : String) : Nat × Nat :=
  events.foldl
    (fun acc e =>
      ( acc.1 + (if (eventTraceCandidates e).any (fun c => c != expectedTraceId) then 1 else 0)
      , acc.2 + (if (eventRunCandidates e).any (fun c => c != expectedRunId) then 1 else 0)))
    (0, 0)

/-- accept.ts `TraceAssessment`. -/
structure TraceAssessment where
  trace_id : String
  scenario_id : String
  retry_attempts : Nat
  expected_workers : List String
  actual_workers : List String
  missing_workers : List String
  total_events : Nat
  fail_reasons : List String
  warn_reasons : List String
deriving DecidableEq, Repr

/-- accept.ts `assessTrace`. -/
def assessTrace (trace : TraceArtifact) : TraceAssessment :=
  let expectedWorkers :=
    match trace.enrichment with
    | some meta => meta.expected_workers
    | none => inferExpectedWorkers trace
  let actualWorkers := getActualWorkers trace.server_logs
  let missingWorkers := getMissingWorkers expectedWorkers actualWorkers
  let failList :=
    (if missingWorkers.contains "fantasy-mcp" then ["MISSING_FANTASY_MCP"] else []) ++
    (if expectedWorkers.contains "auth-worker" && missingWorkers.contains "auth-worker"
     then ["MISSING_AUTH_WORKER"] else [])
  let warnList :=
    (if expectedWorkers.contains "espn-client" && missingWorkers.contains "espn-client"
     then ["MISSING_ESPN_CLIENT"] else []) ++
    (if expectedWorkers.contains "yahoo-client" && missingWorkers.contains "yahoo-client"
     then ["MISSING_YAHOO_CLIENT"] else [])
  let logs := trace.server_logs.getD []
  let totalEvents := (logs.map (fun p => p.2.length)).sum
  let traceMismatchCount :=
    (logs.map (fun p => (analyzeTraceIsolation p.2 trace.trace_id trace.run_id).1)).sum
  let runMismatchCount :=
    (logs.map (fun p => (analyzeTraceIsolation p.2 trace.trace_id trace.run_id).2)).sum
  let failList :=
    failList ++
    (if traceMismatchCount > 0 then ["TRACE_CONTAMINATION"] else []) ++
    (if runMismatchCount > 0 then ["RUN_ID_MISMATCH"] else [])
  { trace_id := trace.trace_id
    scenario_id := trace.scenario_id
    retry_attempts := (trace.enrichment.map (fun meta => meta.attempts)).getD 0
    expected_workers := expectedWorkers
    actual_workers := actualWorkers
    missing_workers := missingWorkers
    total_events := totalEvents
    fail_reasons := sortStrings (firstDedup failList)
    warn_reasons := sortStrings (firstDedup warnList) }

/-- accept.ts `Reason` (the display message is presentation-only and not
modelled). -/
structure Reason where
  code : String
  trace_ids : List String
deriving DecidableEq, Repr

/-- accept.ts `addReason`: extend the entry of the code (pushing the
trace id and re-sorting, unless already present), or append a fresh
entry. -/
def addReason (bucket : List Reason) (code : String) (traceId : String) : List Reason :=
  match bucket with
  | [] => [{ code := code, trace_ids := [traceId] }]
  | r :: rest =>
    if r.code = code then
      (if traceId ∈ r.trace_ids then r
       else { r with trace_ids := sortStrings (r.trace_ids ++ [traceId]) }) :: rest
    else r :: addReason rest code traceId

/-- `Map.prototype.set`: replace the entry of the code in place, append
when absent. -/
def bucketSet (bucket : List Reason) (r : Reason) : List Reason :=
  match bucket with
  | [] => [r]
  | r₀ :: rest =>
    if r₀.code = r.code then r :: rest else r₀ :: bucketSet rest r

/-- Whether an assessment carries a downstream missing-worker warning. -/
def assessHasDownstreamWarn (a : TraceAssessment) : Bool :=
  a.warn_reasons.any
    (fun code => code == "MISSING_ESPN_CLIENT" || code == "MISSING_YAHOO_CLIENT")

/-- accept.ts `ESCALATION_MIN_TRACES`. -/
def ESCALATION_MIN_TRACES : Nat := 2

/-- accept.ts escalation ratio of downstream-warned traces.  The source
computes `count / total` and compares with the literal 0.2 in IEEE
doubles; the rational model below is extensionally equal to it: the
ratio clause only decides the outcome when `count ≤ 1` (otherwise the
`count ≥ 2` clause already fires), and for `count ≤ 1` the double
comparison `count / total > 0.2` holds exactly when the rational one
does (`0 / total = 0`, and `1 / total` rounds to a double on the same
side of 0.2 for every total, with `1 / 5` rounding to the double
nearest 0.2 itself, hence not above it). -/
def escalationRatio (count total : Nat) : ℚ :=
  if total > 0 then (count : ℚ) / (total : ℚ) else 0

/-- The escalation test of accept.ts `runCli`. -/
def escalationTriggered (count total : Nat) : Prop :=
  ESCALATION_MIN_TRACES ≤ count ∨ escalationRatio count total > 1 / 5

instance (count total : Nat) : Decidable (escalationTriggered count total) := by
  unfold escalationTriggered; infer_instance

/-- Stable sort of the reason collections by code (the source sorts with
`localeCompare`, which agrees with code-unit order on the ASCII reason
codes). -/
def sortReasonsByCode (l : List Reason) : List Reason :=
  List.insertionSort (fun a b => strLeP a.code b.code) l

/-- The number of assessments carrying a downstream warning. -/
def downstreamWarnTraceCount (assessments : List TraceAssessment) : Nat :=
  assessments.countP assessHasDownstreamWarn

/-- The trace ids referenced by the escalation reason. -/
def escalationTraceIds (assessments : List TraceAssessment) : List String :=
  sortStrings ((assessments.filter assessHasDownstreamWarn).map (fun a => a.trace_id))

/-- The fail-reason collection built by accept.ts `runCli` from the
completion summary and the assessments: the run-error entry, then the
per-trace fail codes in trace order, then the escalation entry when its
thresholds are met, sorted by code at the end. -/
def acceptFailReasons (summaryErrored : Nat) (traces : List TraceArtifact) : List Reason :=
  let assessments := traces.map assessTrace
  let bucket₀ : List Reason :=
    if summaryErrored > 0 then [{ code := "RUN_HAS_ERRORS", trace_ids := [] }] else []
  let bucket₁ :=
    assessments.foldl
      (fun bucket a =>
        a.fail_reasons.foldl (fun bucket code => addReason bucket code a.trace_id) bucket)
      bucket₀
  let count := downstreamWarnTraceCount assessments
  let bucket₂ :=
    if escalationTriggered count assessments.length then
      bucketSet bucket₁
        { code := "DOWNSTREAM_COVERAGE_ESCALATION"
          trace_ids := escalationTraceIds assessments }
    else bucket₁
  sortReasonsByCode bucket₂

/-! ## Raw observability events and the strict trace query
(src/artifacts.ts)

The query itself is an HTTP POST; the embedding receives the batches the
telemetry API returned (one structured-filter batch and one batch per
message needle) and models the pure combination, deduplication and
filtering the client performs on them. -/

/-- The metadata sub-object of a raw telemetry event. -/
structure ObsMeta where
  id : Option String := none
  requestId : Option String := none
  traceId : Option String := none
  trigger : Option String := none
  message : Option String := none
  service : Option String := none
deriving DecidableEq, Repr

/-- The response block of the execution sub-object. -/
structure ObsResponse where
  status : Option Int := none
deriving DecidableEq, Repr

/-- The inner event block of the execution sub-object. -/
structure ObsWorkersEvent where
  response : Option ObsResponse := none
deriving DecidableEq, Repr

/-- The execution sub-object of a raw telemetry event.  The requestId can
be any raw value (the source guards it with a typeof check). -/
structure ObsWorkers where
  wallTimeMs : Option Int := none
  outcome : Option String := none
  requestId : Option JsValue := none
  event : Option ObsWorkersEvent := none
deriving DecidableEq, Repr

/-- The free-form source sub-object of a raw telemetry event.  The status
and duration fields can be any raw value (the source parses them with
`parseNumber` and a typeof check); the remaining fields are modelled at
their declared interface types. -/
structure ObsSource where
  service : Option String := none
  phase : Option String := none
  run_id : Option String := none
  trace_id : Option String := none
  correlation_id : Option String := none
  tool : Option String := none
  sport : Option String := none
  league_id : Option String := none
  path : Option String := none
  method : Option String := none
  message : Option String := none
  status : Option JsValue := none
  duration_ms : Option JsValue := none
deriving DecidableEq, Repr

/-- artifacts.ts `ObservabilityEvent`. -/
structure ObservabilityEvent where
  timestamp : Option Int := none
  source : Option ObsSource := none
  workers : Option ObsWorkers := none
  metadata : Option ObsMeta := none
deriving DecidableEq, Repr

/-- artifacts.ts `getEventTraceId`:
`event.$metadata?.traceId || event.source?.trace_id`. -/
def getEventTraceId (e : ObservabilityEvent) : Option String :=
  jsOrStr (e.metadata.bind (fun m => m.traceId)) (e.source.bind (fun s => s.trace_id))

/-- artifacts.ts `getEventRunId`: `event.source?.run_id`. -/
def getEventRunId (e : ObservabilityEvent) : Option String :=
  e.source.bind (fun s => s.run_id)

/-- artifacts.ts `hasMatchingTrace`: strict equality of the resolved
trace id with the target (an unresolved id never matches). -/
def hasMatchingTrace (e : ObservabilityEvent) (traceId : String) : Bool :=
  getEventTraceId e == some traceId

/-- The run-id candidate set of a raw event: the structured run id when
truthy, then the ids parsed from the metadata message, then those parsed
from the source message (a set, in insertion order). -/
def obsRunCandidates (e : ObservabilityEvent) : List String :=
  firstDedup
    ((if truthyStr (getEventRunId e) then [optStr (getEventRunId e)] else []) ++
     parseRunIdsFromMessage (e.metadata.bind (fun m => m.message)) ++
     parseRunIdsFromMessage (e.source.bind (fun s => s.message)))

/-- artifacts.ts `hasMatchingRun`: false when the candidate set is empty,
otherwise true exactly when every candidate equals the eval run id. -/
def hasMatchingRun (e : ObservabilityEvent) (evalRunId : String) : Bool :=
  if obsRunCandidates e = [] then false
  else (obsRunCandidates e).all (fun c => c == evalRunId)

/-- The dedup key of artifacts.ts `dedupeEvents` for raw events: the
provider event id when truthy, a timestamp/requestId/message fallback
otherwise (a falsy — zero — timestamp renders as the empty string). -/
def obsEventKey (e : ObservabilityEvent) : String :=
  match e.metadata.bind (fun m => m.id) with
  | some id =>
    if id = "" then
      "fallback:" ++
        (match e.timestamp with
         | some t => if t = 0 then "" else toString t
         | none => "") ++ "|" ++
        optStr (e.metadata.bind (fun m => m.requestId)) ++ "|" ++
        optStr (e.metadata.bind (fun m => m.message))
    else "id:" ++ id
  | none =>
    "fallback:" ++
      (match e.timestamp with
       | some t => if t = 0 then "" else toString t
       | none => "") ++ "|" ++
      optStr (e.metadata.bind (fun m => m.requestId)) ++ "|" ++
      optStr (e.metadata.bind (fun m => m.message))

/-- Helper for artifacts.ts `dedupeEvents`. -/
def dedupeObsAux (seen : List String) : List ObservabilityEvent → List ObservabilityEvent
  | [] => []
  | e :: rest =>
    if obsEventKey e ∈ seen then dedupeObsAux seen rest
    else e :: dedupeObsAux (obsEventKey e :: seen) rest

/-- artifacts.ts `dedupeEvents` on raw events. -/
def dedupeEventsObs (events : List ObservabilityEvent) : List ObservabilityEvent :=
  dedupeObsAux [] events

/-- The strict result set of artifacts.ts `queryWorkerLogsForTrace`:
the structured-filter batch and the needle batches are combined,
deduplicated, and filtered to the events whose trace id matches the
target and whose run candidates pass `hasMatchingRun`.  (When the legacy
run fallback is disabled — the default — this is exactly what the
function returns.) -/
def strictWorkerEvents (structuredBatch : List ObservabilityEvent)
    (needleBatches : List (List ObservabilityEvent))
    (evalRunId traceId : String) : List ObservabilityEvent :=
  (dedupeEventsObs (structuredBatch ++ needleBatches.flatten)).filter
    (fun e => hasMatchingTrace e traceId && hasMatchingRun e evalRunId)

/-- `$workers?.event?.response?.status`. -/
def workersRespStatus (e : ObservabilityEvent) : Option Int :=
  e.workers.bind (fun w => w.event.bind (fun ev => ev.response.bind (fun r => r.status)))

/-- `event.source?.status`. -/
def sourceStatus (e : ObservabilityEvent) : Option JsValue :=
  e.source.bind (fun s => s.status)

/-- artifacts.ts `toLogEvent`.  The two host primitives it uses — epoch
milliseconds to ISO text, and the normalization wall-clock instant — are
passed in as `toISO` and `nowStr`. -/
def toLogEvent (toISO : Int → String) (nowStr : String)
    (e : ObservabilityEvent) : ServerLogEvent :=
  { timestamp :=
      match e.timestamp with
      | some t => if t = 0 then nowStr else toISO t
      | none => nowStr
    status :=
      match workersRespStatus e with
      | some n => some n
      | none => parseNumber (sourceStatus e)
    wall_time_ms := (e.workers.bind (fun w => w.wallTimeMs)).getD 0
    message :=
      jsOrStr (e.metadata.bind (fun m => m.message)) (e.source.bind (fun s => s.message))
    service :=
      jsOrStr (e.source.bind (fun s => s.service)) (e.metadata.bind (fun m => m.service))
    phase := e.source.bind (fun s => s.phase)
    run_id := e.source.bind (fun s => s.run_id)
    trace_id := getEventTraceId e
    correlation_id := e.source.bind (fun s => s.correlation_id)
    tool := e.source.bind (fun s => s.tool)
    sport := e.source.bind (fun s => s.sport)
    league_id := e.source.bind (fun s => s.league_id)
    path := e.source.bind (fun s => s.path)
    method := e.source.bind (fun s => s.method)
    outcome := e.workers.bind (fun w => w.outcome)
    request_id :=
      jsOrStr (e.metadata.bind (fun m => m.requestId))
        (match e.workers.bind (fun w => w.requestId) with
         | some (.str text _) => some text
         | _ => none)
    trigger := e.metadata.bind (fun m => m.trigger)
    status_text :=
      match sourceStatus e with
      | some (.str text _) => some text
      | _ => none
    duration_ms := parseNumber (e.source.bind (fun s => s.duration_ms)) }

/-! ## Re-enrichment windows (enrich.ts) -/

/-- enrich.ts `REENRICH_LOOKBACK_MS` (two minutes). -/
def REENRICH_LOOKBACK_MS : Int := 2 * 60 * 1000

/-- enrich.ts `REENRICH_LOOKAHEAD_MS` (five minutes). -/
def REENRICH_LOOKAHEAD_MS : Int := 5 * 60 * 1000

/-- A time window, as a pair of epoch-millisecond instants. -/
structure TimeWindow where
  start : Int
  stop : Int
deriving DecidableEq, Repr

/-- enrich.ts `buildReenrichWindow`.  The trace timestamp arrives as the
result of the host date parse (`none` models an invalid timestamp, on
which the source throws). -/
def buildReenrichWindow (parsedTimestamp : Option Int) (durationMs : Int) :
    Option TimeWindow :=
  match parsedTimestamp with
  | none => none
  | some endTime =>
    some
      { start := endTime - max durationMs 0 - REENRICH_LOOKBACK_MS
        stop := endTime + REENRICH_LOOKAHEAD_MS }

/-- enrich.ts `buildAttemptWindow`: symmetric expansion of the base
window by (attempt − 1) times the expansion step, both clamped at 0. -/
def buildAttemptWindow (base : TimeWindow) (attempt : Int) (expandMs : Int) :
    TimeWindow :=
  let expandBy := max 0 (attempt - 1) * max 0 expandMs
  { start := base.start - expandBy
    stop := base.stop + expandBy }

/-- Agreement of two normalized events on the eleven fields that enter
the dedup key of run.ts `eventKey`. -/
def agreeOnKeyFields (a b : ServerLogEvent) : Prop :=
  a.timestamp = b.timestamp ∧ a.service = b.service ∧ a.phase = b.phase ∧
  a.request_id = b.request_id ∧ a.trace_id = b.trace_id ∧ a.run_id = b.run_id ∧
  a.tool = b.tool ∧ a.message = b.message ∧ a.status = b.status ∧
  a.status_text = b.status_text ∧ a.duration_ms = b.duration_ms

instance (a b : ServerLogEvent) : Decidable (agreeOnKeyFields a b) := by
  unfold agreeOnKeyFields
  infer_instance

/-! # Supporting lemmas -/

theorem lexLe_total : ∀ a b : List Char, lexLe a b = true ∨ lexLe b a = true
  | [], _ => Or.inl rfl
  | _ :: _, [] => Or.inr rfl
  | a :: as, b :: bs => by
    rcases Nat.lt_trichotomy a.toNat b.toNat with h | h | h
    · left
      simp [lexLe, h]
    · rcases lexLe_total as bs with ih | ih
      · left
        simp [lexLe, h, Nat.lt_irrefl, ih]
      · right
        simp [lexLe, h, Nat.lt_irrefl, ih]
    · right
      simp [lexLe, h]

theorem lexLe_trans :
    ∀ a b c : List Char, lexLe a b = true → lexLe b c = true → lexLe a c = true
  | [], _, _, _, _ => rfl
  | _ :: _, [], _, hab, _ => by simp [lexLe] at hab
  | _ :: _, _ :: _, [], _, hbc => by simp [lexLe] at hbc
  | a :: as, b :: bs, c :: cs, hab, hbc => by
    simp only [lexLe] at hab hbc ⊢
    rcases Nat.lt_trichotomy a.toNat b.toNat with h₁ | h₁ | h₁
    · rcases Nat.lt_trichotomy b.toNat c.toNat with h₂ | h₂ | h₂
      · have : a.toNat < c.toNat := Nat.lt_trans h₁ h₂
        simp [this]
      · have : a.toNat < c.toNat := h₂ ▸ h₁
        simp [this]
      · simp [h₂, Nat.lt_asymm h₂] at hbc
    · rcases Nat.lt_trichotomy b.toNat c.toNat with h₂ | h₂ | h₂
      · have : a.toNat < c.toNat := h₁ ▸ h₂
        simp [this]
      · have h₃ : a.toNat = c.toNat := h₁.trans h₂
        have h₄ : ¬ a.toNat < c.toNat := by omega
        have h₅ : ¬ c.toNat < a.toNat := by omega
        simp only [h₄, if_false, h₅]
        simp only [h₁, Nat.lt_irrefl, if_false] at hab
        simp only [h₂, Nat.lt_irrefl, if_false] at hbc
        exact lexLe_trans as bs cs hab hbc
      · simp [h₂, Nat.lt_asymm h₂] at hbc
    · simp [h₁, Nat.lt_asymm h₁] at hab

instance : IsTotal String strLeP :=
  ⟨fun a b => lexLe_total a.data b.data⟩

instance : IsTrans String strLeP :=
  ⟨fun a b c hab hbc => lexLe_trans a.data b.data c.data hab hbc⟩

theorem sorted_sortStrings (l : List String) : List.Sorted strLeP (sortStrings l) :=
  List.sorted_insertionSort strLeP l

theorem perm_sortStrings (l : List String) : (sortStrings l).Perm l :=
  List.perm_insertionSort strLeP l

theorem mem_sortStrings {a : String} {l : List String} : a ∈ sortStrings l ↔ a ∈ l :=
  (perm_sortStrings l).mem_iff

theorem nodup_sortStrings {l : List String} (h : l.Nodup) : (sortStrings l).Nodup :=
  ((perm_sortStrings l).nodup_iff).mpr h

theorem mem_firstDedupAux {a : String} :
    ∀ {seen l : List String}, a ∈ firstDedupAux seen l ↔ a ∉ seen ∧ a ∈ l := by
  intro seen l
  induction l generalizing seen with
  | nil => simp [firstDedupAux]
  | cons s rest ih =>
    by_cases hs : s ∈ seen
    · simp only [firstDedupAux, if_pos hs, ih, List.mem_cons]
      constructor
      · rintro ⟨hns, hm⟩
        exact ⟨hns, Or.inr hm⟩
      · rintro ⟨hns, hm | hm⟩
        · exact absurd (hm ▸ hs) hns
        · exact ⟨hns, hm⟩
    · simp only [firstDedupAux, if_neg hs, List.mem_cons, ih]
      constructor
      · rintro (rfl | ⟨hns, hm⟩)
        · exact ⟨hs, Or.inl rfl⟩
        · exact ⟨fun h => hns (Or.inr h), Or.inr hm⟩
      · rintro ⟨hns, rfl | hm⟩
        · exact Or.inl rfl
        · by_cases hsa : a = s
          · exact Or.inl hsa
          · refine Or.inr ⟨fun h => ?_, hm⟩
            rcases h with h | h
            · exact hsa h
            · exact hns h

theorem mem_firstDedup {a : String} {l : List String} : a ∈ firstDedup l ↔ a ∈ l := by
  unfold firstDedup
  rw [mem_firstDedupAux]
  simp

theorem platformIs_iff (call : CapturedToolCall) (p : String) :
    platformIs call p = true ↔ ∃ np, platformArg call = some (.str p np) := by
  unfold platformIs
  cases h : platformArg call with
  | none => simp
  | some v =>
    cases v with
    | str text numParse =>
      simp only [beq_iff_eq, Option.some.injEq, JsValue.str.injEq]
      constructor
      · intro hp
        exact ⟨numParse, hp, rfl⟩
      · rintro ⟨np, hp, hn⟩
        exact hp
    | num n => simp
    | boolV b => simp
    | nullV => simp

theorem mem_inferExpectedWorkers {t : TraceArtifact} {w : String} :
    w ∈ inferExpectedWorkers t ↔
      (w = "fantasy-mcp" ∨
       (w = "auth-worker" ∧
         t.tool_calls.any (fun call => call.tool_name == "get_user_session") = true) ∨
       (w = "espn-client" ∧ t.tool_calls.any (fun call => platformIs call "espn") = true) ∨
       (w = "yahoo-client" ∧ t.tool_calls.any (fun call => platformIs call "yahoo") = true)) := by
  unfold inferExpectedWorkers
  rw [mem_sortStrings]
  cases hb1 : t.tool_calls.any (fun call => call.tool_name == "get_user_session") <;>
    cases hb2 : t.tool_calls.any (fun call => platformIs call "espn") <;>
      cases hb3 : t.tool_calls.any (fun call => platformIs call "yahoo") <;>
        simp [List.mem_cons, List.mem_append]

/-- C8: for a trace artifact with a valid timestamp and an attempt
number k ≥ 1, the attempt window is the base window expanded
symmetrically by (k − 1) times the window-expansion step on both ends,
where the base window ends at the trace timestamp plus the five-minute
lookahead margin and starts at the trace timestamp minus
max(duration, 0) minus the two-minute lookback margin; attempt 1 uses
exactly the base window. -/
theorem C8_attempt_window (ts durationMs attempt expandMs : Int) (base : TimeWindow)
    (hbase : buildReenrichWindow (some ts) durationMs = some base)
    (hk : 1 ≤ attempt) (hstep : 0 ≤ expandMs) :
    buildAttemptWindow base attempt expandMs =
      { start := ts - max durationMs 0 - REENRICH_LOOKBACK_MS - (attempt - 1) * expandMs
        stop := ts + REENRICH_LOOKAHEAD_MS + (attempt - 1) * expandMs } ∧
    buildAttemptWindow base 1 expandMs = base := by
  have hb :
      base =
        { start := ts - max durationMs 0 - REENRICH_LOOKBACK_MS
          stop := ts + REENRICH_LOOKAHEAD_MS } := by
    simpa [buildReenrichWindow, eq_comm] using hbase
  subst hb
  have h₁ : max (0 : Int) (attempt - 1) = attempt - 1 := max_eq_right (by omega)
  have h₂ : max (0 : Int) expandMs = expandMs := max_eq_right hstep
  have h₃ : max (0 : Int) (1 - 1) = 0 := by decide
  constructor
  · simp only [buildAttemptWindow, h₁, h₂, TimeWindow.mk.injEq]
  · simp only [buildAttemptWindow, h₃, h₂, TimeWindow.mk.injEq]
    refine ⟨by ring, by ring⟩

theorem C8_attempt_window_witness :
    buildReenrichWindow (some 1000000) 250 = some ⟨879750, 1300000⟩ ∧
    buildAttemptWindow ⟨879750, 1300000⟩ 3 30000 = ⟨819750, 1360000⟩ ∧
    buildAttemptWindow ⟨879750, 1300000⟩ 1 30000 = ⟨879750, 1300000⟩ := by
  have h :=
    C8_attempt_window 1000000 250 3 30000 ⟨879750, 1300000⟩ (by decide) (by decide) (by decide)
  exact ⟨by decide, h.1.trans (by decide), h.2⟩

/-- C7: the expected-worker set of a trace is the lexicographically
sorted, duplicate-free set containing the ingress service fantasy-mcp
always, auth-worker exactly when some tool call is named
get_user_session, and espn-client (resp. yahoo-client) exactly when
some tool call has a platform argument equal to the string espn
(resp. yahoo); no other service ever appears, and the function is total
(it never raises on any argument mapping). -/
theorem C7_infer_expected_workers (trace : TraceArtifact) :
    List.Sorted strLeP (inferExpectedWorkers trace) ∧
    (inferExpectedWorkers trace).Nodup ∧
    "fantasy-mcp" ∈ inferExpectedWorkers trace ∧
    ("auth-worker" ∈ inferExpectedWorkers trace ↔
      ∃ call ∈ trace.tool_calls, call.tool_name = "get_user_session") ∧
    ("espn-client" ∈ inferExpectedWorkers trace ↔
      ∃ call ∈ trace.tool_calls, ∃ np, platformArg call = some (.str "espn" np)) ∧
    ("yahoo-client" ∈ inferExpectedWorkers trace ↔
      ∃ call ∈ trace.tool_calls, ∃ np, platformArg call = some (.str "yahoo" np)) ∧
    (∀ w ∈ inferExpectedWorkers trace,
      w ∈ ["auth-worker", "espn-client", "fantasy-mcp", "yahoo-client"]) := by
  refine ⟨sorted_sortStrings _, ?_, ?_, ?_, ?_, ?_, ?_⟩
  · unfold inferExpectedWorkers
    apply nodup_sortStrings
    cases trace.tool_calls.any (fun call => call.tool_name == "get_user_session") <;>
      cases trace.tool_calls.any (fun call => platformIs call "espn") <;>
        cases trace.tool_calls.any (fun call => platformIs call "yahoo") <;>
          simp
  · rw [mem_inferExpectedWorkers]
    exact Or.inl rfl
  · rw [mem_inferExpectedWorkers]
    simp only [List.any_eq_true, beq_iff_eq]
    constructor
    · rintro (h | h | h | h) <;> simp_all
    · intro h
      exact Or.inr (Or.inl ⟨trivial, h⟩)
  · rw [mem_inferExpectedWorkers]
    simp only [List.any_eq_true]
    constructor
    · rintro (h | h | h | h) <;> simp_all [platformIs_iff]
    · intro h
      refine Or.inr (Or.inr (Or.inl ⟨trivial, ?_⟩))
      obtain ⟨call, hc, np, hp⟩ := h
      exact ⟨call, hc, (platformIs_iff call "espn").mpr ⟨np, hp⟩⟩
  · rw [mem_inferExpectedWorkers]
    simp only [List.any_eq_true]
    constructor
    · rintro (h | h | h | h) <;> simp_all [platformIs_iff]
    · intro h
      refine Or.inr (Or.inr (Or.inr ⟨trivial, ?_⟩))
      obtain ⟨call, hc, np, hp⟩ := h
      exact ⟨call, hc, (platformIs_iff call "yahoo").mpr ⟨np, hp⟩⟩
  · intro w hw
    rw [mem_inferExpectedWorkers] at hw
    rcases hw with rfl | ⟨rfl, _⟩ | ⟨rfl, _⟩ | ⟨rfl, _⟩ <;> decide

theorem C7_infer_expected_workers_witness :
    "auth-worker" ∈
      inferExpectedWorkers
        { run_id := "r", trace_id := "t", scenario_id := "s"
          tool_calls := [{ tool_name := "get_user_session", args := [] }]
          server_logs := none, enrichment := none } :=
  (C7_infer_expected_workers _).2.2.2.1.mpr
    ⟨{ tool_name := "get_user_session", args := [] }, by decide, rfl⟩

theorem mem_setKey {m : ServerLogs} {k : String} {v : List ServerLogEvent} :
    ∀ p ∈ setKey m k v, p ∈ m ∨ p = (k, v) := by
  induction m with
  | nil =>
    intro p hp
    simp only [setKey, List.mem_singleton] at hp
    exact Or.inr hp
  | cons q rest ih =>
    intro p hp
    by_cases hk : q.1 = k
    · simp only [setKey, if_pos hk, List.mem_cons] at hp
      rcases hp with rfl | hp
      · exact Or.inr rfl
      · exact Or.inl (List.mem_cons_of_mem _ hp)
    · rw [show setKey (q :: rest) k v = q :: setKey rest k v by
        cases q; simp [setKey, hk]] at hp
      rcases List.mem_cons.mp hp with rfl | hp
      · exact Or.inl (List.mem_cons_self _ _)
      · rcases ih p hp with h | h
        · exact Or.inl (List.mem_cons_of_mem _ h)
        · exact Or.inr h

theorem dedupeEventsRun_ne_nil {l : List ServerLogEvent} (h : l ≠ []) :
    dedupeEventsRun l ≠ [] := by
  cases l with
  | nil => exact absurd rfl h
  | cons e rest => simp [dedupeEventsRun, dedupeEventsAux]

theorem mergeLoop1_nonempty :
    ∀ (l acc : ServerLogs), (∀ p ∈ acc, p.2 ≠ []) → ∀ p ∈ mergeLoop1 acc l, p.2 ≠ []
  | [], acc, hacc => hacc
  | (k, v) :: rest, acc, hacc => by
    simp only [mergeLoop1]
    by_cases hv : v.length > 0
    · rw [if_pos hv]
      refine mergeLoop1_nonempty rest _ ?_
      intro p hp
      rcases mem_setKey p hp with h | h
      · exact hacc p h
      · subst h
        exact List.length_pos.mp hv
    · rw [if_neg hv]
      exact mergeLoop1_nonempty rest acc hacc

theorem mergeLoop2_nonempty :
    ∀ (l acc : ServerLogs), (∀ p ∈ acc, p.2 ≠ []) → ∀ p ∈ mergeLoop2 acc l, p.2 ≠ []
  | [], acc, hacc => hacc
  | (k, v) :: rest, acc, hacc => by
    simp only [mergeLoop2]
    by_cases hv : v.length = 0
    · rw [if_pos hv]
      exact mergeLoop2_nonempty rest acc hacc
    · rw [if_neg hv]
      refine mergeLoop2_nonempty rest _ ?_
      intro p hp
      rcases mem_setKey p hp with h | h
      · exact hacc p h
      · subst h
        refine dedupeEventsRun_ne_nil ?_
        intro habs
        rcases List.append_eq_nil.mp habs with ⟨_, hv2⟩
        exact hv (by simp [hv2])

/-- C10: the merged per-service mapping never carries an empty event
list: every entry of the result of mergeServerLogs, and every value
readable at some key of the result, is a non-empty list (entries that
would be empty are dropped by both merge loops). -/
theorem C10_merge_no_empty_entries (current incoming : ServerLogs) :
    (∀ p ∈ mergeServerLogs current incoming, p.2 ≠ []) ∧
    (∀ k v, findVal (mergeServerLogs current incoming) k = some v → v ≠ []) := by
  have hmain : ∀ p ∈ mergeServerLogs current incoming, p.2 ≠ [] := by
    unfold mergeServerLogs
    exact mergeLoop2_nonempty incoming _ (mergeLoop1_nonempty current [] (by simp))
  refine ⟨hmain, ?_⟩
  intro k v hfind
  unfold findVal at hfind
  cases hf : (mergeServerLogs current incoming).find? (fun p => p.1 == k) with
  | none => rw [hf] at hfind; simp at hfind
  | some p =>
    rw [hf] at hfind
    simp at hfind
    subst hfind
    exact hmain p (List.mem_of_find?_eq_some hf)

theorem C10_merge_no_empty_entries_witness :
    (("svc", [({ timestamp := "t", status := none, wall_time_ms := 0 } : ServerLogEvent)]) ∈
      mergeServerLogs [("svc", [{ timestamp := "t", status := none, wall_time_ms := 0 }])] []) ∧
    [({ timestamp := "t", status := none, wall_time_ms := 0 } : ServerLogEvent)] ≠ [] :=
  ⟨by decide,
    (C10_merge_no_empty_entries
        [("svc", [{ timestamp := "t", status := none, wall_time_ms := 0 }])] []).1
      ("svc", [{ timestamp := "t", status := none, wall_time_ms := 0 }]) (by decide)⟩

/-- C4 (counterexample): two events that disagree on one of the eleven
key fields — the message, absent in the first and the empty string in
the second — are nevertheless collapsed by the dedup, because both
encodings render as the empty string inside the key. -/
theorem C4_counterexample :
    dedupeEventsRun
        [ { timestamp := "t", status := none, wall_time_ms := 0 }
        , { timestamp := "t", status := none, wall_time_ms := 0, message := some "" } ]
      = [ { timestamp := "t", status := none, wall_time_ms := 0 } ] ∧
    ({ timestamp := "t", status := none, wall_time_ms := 0 } : ServerLogEvent).message ≠
      ({ timestamp := "t", status := none, wall_time_ms := 0,
         message := some "" } : ServerLogEvent).message := by
  constructor
  · decide
  · decide

/-- C4 (amended): the dedup collapses two events exactly when their
canonical key strings agree; agreement on all eleven key fields always
yields equal keys (fields outside the eleven never enter the key), but
equal keys do not imply field-wise agreement — an absent optional field
and the empty string render identically, and the bar separator can
shift between fields. -/
theorem C4_dedup_key_semantics (a b : ServerLogEvent) :
    (agreeOnKeyFields a b → eventKey a = eventKey b) ∧
    dedupeEventsRun [a, b] = if eventKey b = eventKey a then [a] else [a, b] := by
  constructor
  · rintro ⟨h1, h2, h3, h4, h5, h6, h7, h8, h9, h10, h11⟩
    unfold eventKey
    rw [h1, h2, h3, h4, h5, h6, h7, h8, h9, h10, h11]
  · by_cases h : eventKey b = eventKey a
    · simp [dedupeEventsRun, dedupeEventsAux, h]
    · simp [dedupeEventsRun, dedupeEventsAux, h]

theorem C4_dedup_key_semantics_witness :
    agreeOnKeyFields
        { timestamp := "t", status := some 200, wall_time_ms := 3 }
        { timestamp := "t", status := some 200, wall_time_ms := 9, sport := some "baseball" } ∧
    eventKey { timestamp := "t", status := some 200, wall_time_ms := 3 } =
      eventKey { timestamp := "t", status := some 200, wall_time_ms := 9,
                 sport := some "baseball" } :=
  ⟨by decide,
    (C4_dedup_key_semantics
        { timestamp := "t", status := some 200, wall_time_ms := 3 }
        { timestamp := "t", status := some 200, wall_time_ms := 9,
          sport := some "baseball" }).1 (by decide)⟩

theorem foldl_pair_countP (f g : ServerLogEvent → Bool) :
    ∀ (events : List ServerLogEvent) (acc : Nat × Nat),
      events.foldl
          (fun acc e =>
            (acc.1 + (if f e then 1 else 0), acc.2 + (if g e then 1 else 0)))
          acc
        = (acc.1 + events.countP f, acc.2 + events.countP g)
  | [], acc => by simp
  | e :: rest, acc => by
    simp only [List.foldl_cons, foldl_pair_countP f g rest, List.countP_cons]
    cases hf : f e <;> cases hg : g e <;> simp [hf, hg, Prod.mk.injEq] <;> omega

theorem any_ne_eq_decide (L : List String) (t : String) :
    (L.any (fun c => c != t)) = decide (∃ c ∈ L, c ≠ t) := by
  by_cases hp : ∃ c ∈ L, c ≠ t
  · have h1 : L.any (fun c => c != t) = true := by
      simpa [List.any_eq_true, bne_iff_ne] using hp
    simp [h1, hp]
  · have h1 : L.any (fun c => c != t) = false := by
      rw [← Bool.not_eq_true]
      simpa [List.any_eq_true, bne_iff_ne] using hp
    simp [h1, hp]

/-- C1 (counterexample): an event whose structured trace id equals the
owning trace id but whose message carries a second, different candidate
is counted as a trace mismatch — the analyzer counts an event as soon
as SOME candidate disagrees, even though another candidate matches the
owner. -/
theorem C1_counterexample :
    (analyzeTraceIsolation
        [ { timestamp := "ts", status := some 200, wall_time_ms := 1
            , message := some "trace_id=trace_other_999"
            , trace_id := some "t1", run_id := some "r1" } ]
        "t1" "r1").1 = 1 ∧
    "t1" ∈ eventTraceCandidates
        { timestamp := "ts", status := some 200, wall_time_ms := 1
          , message := some "trace_id=trace_other_999"
          , trace_id := some "t1", run_id := some "r1" } ∧
    eventTraceCandidates
        { timestamp := "ts", status := some 200, wall_time_ms := 1
          , message := some "trace_id=trace_other_999"
          , trace_id := some "t1", run_id := some "r1" }
      = ["t1", "trace_other_999"] := by
  refine ⟨?_, ?_, ?_⟩ <;> decide

/-- C1 (amended): the analyzer counts an event toward the trace-mismatch
(resp. run-mismatch) tally exactly when at least one of its candidates
for that dimension — the structured field when truthy, plus every id
recoverable from the message — differs from the owning id; an event
with no candidates, or with all candidates equal to the owner, is not
counted, but an event that matches on one candidate IS counted whenever
a second candidate disagrees. -/
theorem C1_isolation_mismatch_counts (events : List ServerLogEvent)
    (expectedTraceId expectedRunId : String) :
    analyzeTraceIsolation events expectedTraceId expectedRunId =
      ( events.countP (fun e => decide (∃ c ∈ eventTraceCandidates e, c ≠ expectedTraceId))
      , events.countP (fun e => decide (∃ c ∈ eventRunCandidates e, c ≠ expectedRunId)) ) := by
  unfold analyzeTraceIsolation
  rw [foldl_pair_countP
    (fun e => (eventTraceCandidates e).any (fun c => c != expectedTraceId))
    (fun e => (eventRunCandidates e).any (fun c => c != expectedRunId)) events (0, 0)]
  simp only [Nat.zero_add, Prod.mk.injEq]
  constructor
  · exact List.countP_congr (fun e _ => by rw [any_ne_eq_decide])
  · exact List.countP_congr (fun e _ => by rw [any_ne_eq_decide])

/-- C9: the normalizer's status prefers the numeric HTTP status of the
execution sub-block; failing that, the numeric parse of the payload
status; failing that, the status is null and, when the payload status
is a raw string, its text is preserved in the status_text field. -/
theorem C9_normalizer_status (toISO : Int → String) (nowStr : String)
    (e : ObservabilityEvent) :
    (∀ n, workersRespStatus e = some n → (toLogEvent toISO nowStr e).status = some n) ∧
    (workersRespStatus e = none →
      (toLogEvent toISO nowStr e).status = parseNumber (sourceStatus e)) ∧
    (workersRespStatus e = none → parseNumber (sourceStatus e) = none →
      (toLogEvent toISO nowStr e).status = none ∧
      (∀ text np, sourceStatus e = some (.str text np) →
        (toLogEvent toISO nowStr e).status_text = some text)) := by
  refine ⟨?_, ?_, ?_⟩
  · intro n h
    simp [toLogEvent, h]
  · intro h
    simp [toLogEvent, h]
  · intro h hp
    constructor
    · simp [toLogEvent, h, hp]
    · intro text np hs
      simp [toLogEvent, hs]

theorem C9_normalizer_status_witness :
    (toLogEvent (fun _ => "iso") "now"
        { source := some { status := some (.str "true" none) } }).status = none ∧
    (toLogEvent (fun _ => "iso") "now"
        { source := some { status := some (.str "true" none) } }).status_text
      = some "true" :=
  ⟨((C9_normalizer_status (fun _ => "iso") "now"
        { source := some { status := some (.str "true" none) } }).2.2
      (by decide) (by decide)).1,
    ((C9_normalizer_status (fun _ => "iso") "now"
        { source := some { status := some (.str "true" none) } }).2.2
      (by decide) (by decide)).2 "true" none (by decide)⟩

theorem mem_seenAfter {x : String} :
    ∀ {l : List ServerLogEvent} {s : List String},
      x ∈ seenAfter s l ↔ x ∈ s ∨ ∃ e ∈ l, eventKey e = x := by
  intro l
  induction l with
  | nil => intro s; simp [seenAfter]
  | cons e rest ih =>
    intro s
    by_cases he : eventKey e ∈ s
    · rw [seenAfter, if_pos he, ih]
      constructor
      · rintro (h | h)
        · exact Or.inl h
        · exact Or.inr (by
            obtain ⟨f, hf, hk⟩ := h
            exact ⟨f, List.mem_cons_of_mem _ hf, hk⟩)
      · rintro (h | ⟨f, hf, hk⟩)
        · exact Or.inl h
        · rcases List.mem_cons.mp hf with rfl | hf
          · exact Or.inl (hk ▸ he)
          · exact Or.inr ⟨f, hf, hk⟩
    · rw [seenAfter, if_neg he, ih]
      constructor
      · rintro (h | h)
        · rcases List.mem_cons.mp h with rfl | h
          · exact Or.inr ⟨e, List.mem_cons_self _ _, rfl⟩
          · exact Or.inl h
        · obtain ⟨f, hf, hk⟩ := h
          exact Or.inr ⟨f, List.mem_cons_of_mem _ hf, hk⟩
      · rintro (h | ⟨f, hf, hk⟩)
        · exact Or.inl (List.mem_cons_of_mem _ h)
        · rcases List.mem_cons.mp hf with rfl | hf
          · exact Or.inl (hk ▸ List.mem_cons_self _ _)
          · exact Or.inr ⟨f, hf, hk⟩

theorem dedupeEventsAux_congr :
    ∀ {l : List ServerLogEvent} {s₁ s₂ : List String},
      (∀ x, x ∈ s₁ ↔ x ∈ s₂) → dedupeEventsAux s₁ l = dedupeEventsAux s₂ l := by
  intro l
  induction l with
  | nil => intro s₁ s₂ _; rfl
  | cons e rest ih =>
    intro s₁ s₂ hs
    by_cases he : eventKey e ∈ s₁
    · rw [dedupeEventsAux, if_pos he, dedupeEventsAux, if_pos ((hs _).mp he)]
      exact ih hs
    · rw [dedupeEventsAux, if_neg he, dedupeEventsAux,
        if_neg (fun h => he ((hs _).mpr h))]
      refine congrArg _ (ih ?_)
      intro x
      simp only [List.mem_cons]
      exact or_congr Iff.rfl (hs x)

theorem dedupeEventsAux_append :
    ∀ (x y : List ServerLogEvent) (s : List String),
      dedupeEventsAux s (x ++ y) =
        dedupeEventsAux s x ++ dedupeEventsAux (seenAfter s x) y
  | [], y, s => by simp [dedupeEventsAux, seenAfter]
  | e :: rest, y, s => by
    by_cases he : eventKey e ∈ s
    · rw [List.cons_append, dedupeEventsAux, if_pos he, dedupeEventsAux, if_pos he,
        seenAfter, if_pos he]
      exact dedupeEventsAux_append rest y s
    · rw [List.cons_append, dedupeEventsAux, if_neg he, dedupeEventsAux, if_neg he,
        seenAfter, if_neg he, List.cons_append]
      exact congrArg _ (dedupeEventsAux_append rest y _)

theorem dedupeEventsAux_sublist :
    ∀ (l : List ServerLogEvent) (s : List String), (dedupeEventsAux s l).Sublist l
  | [], _ => List.Sublist.refl _
  | e :: rest, s => by
    by_cases he : eventKey e ∈ s
    · rw [dedupeEventsAux, if_pos he]
      exact (dedupeEventsAux_sublist rest s).cons e
    · rw [dedupeEventsAux, if_neg he]
      exact (dedupeEventsAux_sublist rest _).cons₂ e

theorem dedupeEventsAux_subset_seen :
    ∀ (l : List ServerLogEvent) (s t : List String), (∀ x ∈ t, x ∈ s) →
      dedupeEventsAux s (dedupeEventsAux t l) = dedupeEventsAux s l
  | [], s, t, _ => rfl
  | e :: rest, s, t, hts => by
    by_cases ht : eventKey e ∈ t
    · rw [dedupeEventsAux, if_pos ht, dedupeEventsAux_subset_seen rest s t hts,
        dedupeEventsAux, if_pos (hts _ ht)]
    · by_cases hs : eventKey e ∈ s
      · rw [dedupeEventsAux, if_neg ht, dedupeEventsAux, if_pos hs,
          dedupeEventsAux, if_pos hs]
        refine dedupeEventsAux_subset_seen rest s _ ?_
        intro x hx
        rcases List.mem_cons.mp hx with rfl | hx
        · exact hs
        · exact hts x hx
      · rw [dedupeEventsAux, if_neg ht, dedupeEventsAux, if_neg hs,
          dedupeEventsAux, if_neg hs]
        refine congrArg _ (dedupeEventsAux_subset_seen rest _ _ ?_)
        intro x hx
        rcases List.mem_cons.mp hx with rfl | hx
        · exact List.mem_cons_self _ _
        · exact List.mem_cons_of_mem _ (hts x hx)

theorem dedupeEventsAux_all_seen :
    ∀ (l : List ServerLogEvent) (s : List String),
      (∀ e ∈ l, eventKey e ∈ s) → dedupeEventsAux s l = []
  | [], _, _ => rfl
  | e :: rest, s, h => by
    rw [dedupeEventsAux, if_pos (h e (List.mem_cons_self _ _))]
    exact dedupeEventsAux_all_seen rest s (fun f hf => h f (List.mem_cons_of_mem _ hf))

theorem dedupeEventsAux_key_mem {x : String} :
    ∀ {l : List ServerLogEvent} {s : List String},
      (∃ e ∈ dedupeEventsAux s l, eventKey e = x) ↔
        (x ∉ s ∧ ∃ e ∈ l, eventKey e = x) := by
  intro l
  induction l with
  | nil => intro s; simp [dedupeEventsAux]
  | cons e rest ih =>
    intro s
    by_cases he : eventKey e ∈ s
    · rw [dedupeEventsAux, if_pos he, ih]
      constructor
      · rintro ⟨hx, f, hf, hk⟩
        exact ⟨hx, f, List.mem_cons_of_mem _ hf, hk⟩
      · rintro ⟨hx, f, hf, hk⟩
        rcases List.mem_cons.mp hf with rfl | hf
        · exact absurd (hk ▸ he) hx
        · exact ⟨hx, f, hf, hk⟩
    · rw [dedupeEventsAux, if_neg he]
      constructor
      · intro h
        obtain ⟨f, hf, hk⟩ := h
        rcases List.mem_cons.mp hf with rfl | hf
        · exact ⟨hk ▸ he, f, List.mem_cons_self _ _, hk⟩
        · obtain ⟨hx, g, hg, hgk⟩ := ih.mp ⟨f, hf, hk⟩
          refine ⟨fun hmem => hx (List.mem_cons_of_mem _ hmem), g,
            List.mem_cons_of_mem _ hg, hgk⟩
      · rintro ⟨hx, f, hf, hk⟩
        rcases List.mem_cons.mp hf with rfl | hf
        · exact ⟨f, List.mem_cons_self _ _, hk⟩
        · by_cases hxe : x = eventKey e
          · exact ⟨e, List.mem_cons_self _ _, hxe.symm⟩
          · obtain ⟨g, hg, hgk⟩ := ih.mpr ⟨by
              intro hmem
              rcases List.mem_cons.mp hmem with h | h
              · exact hxe h
              · exact hx h, f, hf, hk⟩
            exact ⟨g, List.mem_cons_of_mem _ hg, hgk⟩

theorem dedupeEventsAux_of_nodup :
    ∀ (l : List ServerLogEvent) (s : List String),
      (l.map eventKey).Nodup → (∀ e ∈ l, eventKey e ∉ s) → dedupeEventsAux s l = l
  | [], _, _, _ => rfl
  | e :: rest, s, hnd, hns => by
    rw [dedupeEventsAux, if_neg (hns e (List.mem_cons_self _ _))]
    refine congrArg _ (dedupeEventsAux_of_nodup rest _ ?_ ?_)
    · exact (List.nodup_cons.mp (by simpa using hnd)).2
    · intro f hf hmem
      rcases List.mem_cons.mp hmem with h | h
      · exact (List.nodup_cons.mp (by simpa using hnd)).1
          (h ▸ List.mem_map_of_mem eventKey hf)
      · exact hns f (List.mem_cons_of_mem _ hf) h

theorem dedupe_dedupe_append (x y : List ServerLogEvent) :
    dedupeEventsRun (dedupeEventsRun x ++ y) = dedupeEventsRun (x ++ y) := by
  unfold dedupeEventsRun
  rw [dedupeEventsAux_append, dedupeEventsAux_append,
    dedupeEventsAux_subset_seen x [] [] (fun _ h => h)]
  refine congrArg _ (dedupeEventsAux_congr ?_)
  intro z
  rw [mem_seenAfter, mem_seenAfter]
  constructor
  · rintro (h | h)
    · exact Or.inl h
    · exact Or.inr (dedupeEventsAux_key_mem.mp h).2
  · rintro (h | h)
    · exact Or.inl h
    · exact Or.inr (dedupeEventsAux_key_mem.mpr ⟨by simp, h⟩)

theorem dedupe_append_dedupe (x y : List ServerLogEvent) :
    dedupeEventsRun (x ++ dedupeEventsRun y) = dedupeEventsRun (x ++ y) := by
  unfold dedupeEventsRun
  rw [dedupeEventsAux_append, dedupeEventsAux_append,
    dedupeEventsAux_subset_seen y (seenAfter [] x) [] (fun _ h => by simp at h)]

theorem mPoint_assoc (a b c : List ServerLogEvent) :
    mPoint (mPoint a b) c = mPoint a (mPoint b c) := by
  by_cases hc : c = []
  · subst hc
    by_cases hb : b = [] <;> simp [mPoint, hb]
  · by_cases hb : b = []
    · subst hb
      have hdc : dedupeEventsRun c ≠ [] := dedupeEventsRun_ne_nil hc
      simp only [mPoint, if_neg hc, List.nil_append, if_neg hdc]
      exact (dedupe_append_dedupe a c).symm
    · have hab : dedupeEventsRun (a ++ b) ≠ [] :=
        dedupeEventsRun_ne_nil (by simp [hb])
      have hbc : dedupeEventsRun (b ++ c) ≠ [] :=
        dedupeEventsRun_ne_nil (by simp [hb])
      simp only [mPoint, if_neg hb, if_neg hc, if_neg hab, if_neg hbc]
      rw [dedupe_dedupe_append, dedupe_append_dedupe, List.append_assoc]

theorem findVal_nil (k : String) : findVal [] k = none :=
  rfl

theorem findVal_cons (q : String × List ServerLogEvent) (rest : ServerLogs) (k : String) :
    findVal (q :: rest) k = if q.1 = k then some q.2 else findVal rest k := by
  by_cases h : q.1 = k
  · simp [findVal, List.find?_cons, h]
  · simp [findVal, List.find?_cons, h]

theorem findVal_setKey :
    ∀ (m : ServerLogs) (k : String) (v : List ServerLogEvent) (k₂ : String),
      findVal (setKey m k v) k₂ = if k₂ = k then some v else findVal m k₂
  | [], k, v, k₂ => by
    rcases eq_or_ne k₂ k with rfl | h
    · simp [setKey, findVal_cons]
    · simp [setKey, findVal_cons, h, Ne.symm h, findVal_nil]
  | (k₀, v₀) :: rest, k, v, k₂ => by
    rcases eq_or_ne k₀ k with rfl | hq
    · rcases eq_or_ne k₂ k₀ with rfl | h
      · simp [setKey, findVal_cons]
      · simp [setKey, findVal_cons, h, Ne.symm h]
    · rcases eq_or_ne k₂ k with rfl | h
      · simp [setKey, findVal_cons, hq, findVal_setKey rest]
      · simp only [setKey, if_neg hq, findVal_cons, findVal_setKey rest, if_neg h]

theorem findVal_eq_none_of_not_mem :
    ∀ {m : ServerLogs} {k : String}, k ∉ m.map Prod.fst → findVal m k = none := by
  intro m
  induction m with
  | nil => intro k _; rfl
  | cons q rest ih =>
    intro k hk
    simp only [List.map_cons, List.mem_cons] at hk
    push_neg at hk
    rw [findVal_cons, if_neg (fun h => hk.1 h.symm), ih hk.2]

theorem findVal_mergeLoop1 :
    ∀ (l : ServerLogs), (l.map Prod.fst).Nodup → ∀ (acc : ServerLogs) (k : String),
      findVal (mergeLoop1 acc l) k =
        match findVal l k with
        | some v => if v = [] then findVal acc k else some v
        | none => findVal acc k
  | [], _, acc, k => by simp [mergeLoop1, findVal_nil]
  | (k₀, v₀) :: rest, hnd, acc, k => by
    have hnd' : (k₀ :: rest.map Prod.fst).Nodup := by simpa only [List.map_cons] using hnd
    have hk₀ : k₀ ∉ rest.map Prod.fst := (List.nodup_cons.mp hnd').1
    have hndr : (rest.map Prod.fst).Nodup := (List.nodup_cons.mp hnd').2
    rw [mergeLoop1, findVal_mergeLoop1 rest hndr]
    rcases eq_or_ne k k₀ with rfl | hk
    · have hcons : findVal ((k, v₀) :: rest) k = some v₀ := by
        rw [findVal_cons, if_pos rfl]
      rw [findVal_eq_none_of_not_mem hk₀, hcons]
      rcases eq_or_ne v₀ ([] : List ServerLogEvent) with rfl | hv
      · simp
      · have hlen : v₀.length > 0 := List.length_pos.mpr hv
        simp only [hlen, if_true, if_neg hv]
        rw [findVal_setKey]
        simp
    · have hke : k₀ ≠ k := fun h => hk h.symm
      have hcons : findVal ((k₀, v₀) :: rest) k = findVal rest k := by
        rw [findVal_cons]
        simp [hke]
      rw [hcons]
      have hacc : findVal (if v₀.length > 0 then setKey acc k₀ v₀ else acc) k =
          findVal acc k := by
        split
        · rw [findVal_setKey]
          simp [hk]
        · rfl
      cases hrf : findVal rest k with
      | none => simpa using hacc
      | some v =>
        rcases eq_or_ne v ([] : List ServerLogEvent) with rfl | hv
        · simpa using hacc
        · simp [hv]

theorem findVal_mergeLoop2 :
    ∀ (l : ServerLogs), (l.map Prod.fst).Nodup → ∀ (acc : ServerLogs) (k : String),
      findVal (mergeLoop2 acc l) k =
        match findVal l k with
        | some v =>
          if v = [] then findVal acc k
          else some (dedupeEventsRun (lookupList acc k ++ v))
        | none => findVal acc k
  | [], _, acc, k => by simp [mergeLoop2, findVal_nil]
  | (k₀, v₀) :: rest, hnd, acc, k => by
    have hnd' : (k₀ :: rest.map Prod.fst).Nodup := by simpa only [List.map_cons] using hnd
    have hk₀ : k₀ ∉ rest.map Prod.fst := (List.nodup_cons.mp hnd').1
    have hndr : (rest.map Prod.fst).Nodup := (List.nodup_cons.mp hnd').2
    rw [mergeLoop2, findVal_mergeLoop2 rest hndr]
    rcases eq_or_ne k k₀ with rfl | hk
    · have hcons : findVal ((k, v₀) :: rest) k = some v₀ := by
        rw [findVal_cons, if_pos rfl]
      rw [findVal_eq_none_of_not_mem hk₀, hcons]
      rcases eq_or_ne v₀ ([] : List ServerLogEvent) with rfl | hv
      · simp
      · have hlen : ¬ v₀.length = 0 := by simpa using hv
        simp only [hlen, if_false, if_neg hv]
        rw [findVal_setKey]
        simp
    · have hke : k₀ ≠ k := fun h => hk h.symm
      have hcons : findVal ((k₀, v₀) :: rest) k = findVal rest k := by
        rw [findVal_cons]
        simp [hke]
      rw [hcons]
      have hacc :
          findVal
            (if v₀.length = 0 then acc
             else setKey acc k₀ (dedupeEventsRun (lookupList acc k₀ ++ v₀))) k =
          findVal acc k := by
        split
        · rfl
        · rw [findVal_setKey]
          simp [hk]
      have hlook : ∀ m : ServerLogs,
          findVal m k = findVal acc k → lookupList m k = lookupList acc k := by
        intro m hm
        unfold lookupList
        rw [hm]
      cases hrf : findVal rest k with
      | none => simpa using hacc
      | some v =>
        rcases eq_or_ne v ([] : List ServerLogEvent) with rfl | hv
        · simpa using hacc
        · simp only [if_neg hv]
          rw [hlook _ hacc]

theorem lookupList_mergeLoop1 (current : ServerLogs)
    (h : (current.map Prod.fst).Nodup) (k : String) :
    lookupList (mergeLoop1 [] current) k = lookupList current k := by
  unfold lookupList
  rw [findVal_mergeLoop1 current h [] k]
  cases hf : findVal current k with
  | none => rfl
  | some v =>
    rcases eq_or_ne v ([] : List ServerLogEvent) with rfl | hv
    · simp [findVal_nil]
    · simp [hv]

theorem lookupList_mergeServerLogs (current incoming : ServerLogs)
    (hc : (current.map Prod.fst).Nodup) (hi : (incoming.map Prod.fst).Nodup)
    (k : String) :
    lookupList (mergeServerLogs current incoming) k =
      mPoint (lookupList current k) (lookupList incoming k) := by
  unfold mergeServerLogs
  have hstep := lookupList_mergeLoop1 current hc k
  unfold lookupList at hstep ⊢
  rw [findVal_mergeLoop2 incoming hi _ k]
  cases hf : findVal incoming k with
  | none =>
    simp only [Option.getD_none, mPoint, if_pos rfl]
    exact hstep
  | some v =>
    rcases eq_or_ne v ([] : List ServerLogEvent) with rfl | hv
    · simp only [if_pos rfl, Option.getD_some, mPoint]
      exact hstep
    · simp only [if_neg hv, Option.getD_some, mPoint, lookupList, hstep]

theorem map_fst_setKey :
    ∀ (m : ServerLogs) (k : String) (v : List ServerLogEvent),
      (setKey m k v).map Prod.fst =
        if k ∈ m.map Prod.fst then m.map Prod.fst else m.map Prod.fst ++ [k]
  | [], k, v => by simp [setKey]
  | (k₀, v₀) :: rest, k, v => by
    rcases eq_or_ne k₀ k with rfl | hq
    · simp [setKey]
    · rw [setKey, if_neg hq]
      by_cases hm : k ∈ rest.map Prod.fst
      · simp only [List.map_cons, map_fst_setKey rest k v, if_pos hm, List.mem_cons]
        rw [if_pos (Or.inr hm)]
      · simp only [List.map_cons, map_fst_setKey rest k v, if_neg hm, List.mem_cons]
        rw [if_neg (by
          rintro (h | h)
          · exact hq h.symm
          · exact hm h)]
        simp

theorem nodup_keys_setKey {m : ServerLogs} (k : String) (v : List ServerLogEvent)
    (h : (m.map Prod.fst).Nodup) : ((setKey m k v).map Prod.fst).Nodup := by
  rw [map_fst_setKey]
  by_cases hm : k ∈ m.map Prod.fst
  · rwa [if_pos hm]
  · rw [if_neg hm]
    refine h.append (List.nodup_singleton k) ?_
    intro a ha hb
    rw [List.mem_singleton] at hb
    subst hb
    exact hm ha

theorem nodup_keys_mergeLoop1 :
    ∀ (l acc : ServerLogs), ((acc.map Prod.fst)).Nodup →
      ((mergeLoop1 acc l).map Prod.fst).Nodup
  | [], acc, h => h
  | (k, v) :: rest, acc, h => by
    rw [mergeLoop1]
    refine nodup_keys_mergeLoop1 rest _ ?_
    by_cases hv : v.length > 0
    · rw [if_pos hv]
      exact nodup_keys_setKey k v h
    · rwa [if_neg hv]

theorem nodup_keys_mergeLoop2 :
    ∀ (l acc : ServerLogs), ((acc.map Prod.fst)).Nodup →
      ((mergeLoop2 acc l).map Prod.fst).Nodup
  | [], acc, h => h
  | (k, v) :: rest, acc, h => by
    rw [mergeLoop2]
    refine nodup_keys_mergeLoop2 rest _ ?_
    by_cases hv : v.length = 0
    · rwa [if_pos hv]
    · rw [if_neg hv]
      exact nodup_keys_setKey k _ h

theorem nodup_keys_mergeServerLogs (current incoming : ServerLogs) :
    ((mergeServerLogs current incoming).map Prod.fst).Nodup := by
  unfold mergeServerLogs
  exact nodup_keys_mergeLoop2 incoming _ (nodup_keys_mergeLoop1 current [] (by simp))

theorem setKey_append :
    ∀ {m : ServerLogs} {k : String} (v : List ServerLogEvent),
      k ∉ m.map Prod.fst → setKey m k v = m ++ [(k, v)] := by
  intro m
  induction m with
  | nil => intro k v _; rfl
  | cons q rest ih =>
    intro k v hk
    simp only [List.map_cons, List.mem_cons] at hk
    push_neg at hk
    rw [setKey, if_neg (fun h => hk.1 h.symm), ih v hk.2, List.cons_append]

theorem setKey_eq_self :
    ∀ {m : ServerLogs} {k : String} {v : List ServerLogEvent},
      findVal m k = some v → setKey m k v = m := by
  intro m
  induction m with
  | nil => intro k v h; simp [findVal_nil] at h
  | cons q rest ih =>
    intro k v h
    rw [findVal_cons] at h
    by_cases hq : q.1 = k
    · rw [if_pos hq] at h
      have hv : q.2 = v := Option.some.inj h
      rw [setKey, if_pos hq]
      obtain ⟨k₀, v₀⟩ := q
      simp only at hq hv
      subst hq
      subst hv
      rfl
    · rw [if_neg hq] at h
      rw [setKey, if_neg hq, ih h]

theorem findVal_of_mem_nodup :
    ∀ {m : ServerLogs}, (m.map Prod.fst).Nodup → ∀ p ∈ m, findVal m p.1 = some p.2 := by
  intro m
  induction m with
  | nil => intro _ p hp; simp at hp
  | cons q rest ih =>
    intro hnd p hp
    have hnd' : (q.1 :: rest.map Prod.fst).Nodup := by
      simpa only [List.map_cons] using hnd
    rcases List.mem_cons.mp hp with rfl | hp
    · rw [findVal_cons, if_pos rfl]
    · have hne : q.1 ≠ p.1 := by
        intro h
        exact (List.nodup_cons.mp hnd').1 (h ▸ List.mem_map_of_mem Prod.fst hp)
      rw [findVal_cons, if_neg hne]
      exact ih (List.nodup_cons.mp hnd').2 p hp

theorem mergeLoop1_copy :
    ∀ (l acc : ServerLogs), (l.map Prod.fst).Nodup → (∀ p ∈ l, p.2 ≠ []) →
      (∀ p ∈ l, p.1 ∉ acc.map Prod.fst) → mergeLoop1 acc l = acc ++ l
  | [], acc, _, _, _ => by simp [mergeLoop1]
  | (k, v) :: rest, acc, hnd, hne, hdisj => by
    have hnd' : (k :: rest.map Prod.fst).Nodup := by simpa only [List.map_cons] using hnd
    have hv : v ≠ [] := hne (k, v) (List.mem_cons_self _ _)
    rw [mergeLoop1, if_pos (List.length_pos.mpr hv),
      setKey_append v (hdisj (k, v) (List.mem_cons_self _ _)),
      mergeLoop1_copy rest (acc ++ [(k, v)]) (List.nodup_cons.mp hnd').2
        (fun p hp => hne p (List.mem_cons_of_mem _ hp))
        (fun p hp hmem => by
          rw [List.map_append, List.mem_append] at hmem
          rcases hmem with h | h
          · exact hdisj p (List.mem_cons_of_mem _ hp) h
          · simp only [List.map_cons, List.map_nil, List.mem_singleton] at h
            exact (List.nodup_cons.mp hnd').1 (h ▸ List.mem_map_of_mem Prod.fst hp))]
    simp

theorem dedupe_self_append {v : List ServerLogEvent}
    (hnd : (v.map eventKey).Nodup) : dedupeEventsRun (v ++ v) = v := by
  unfold dedupeEventsRun
  rw [dedupeEventsAux_append, dedupeEventsAux_of_nodup v [] hnd (by simp),
    dedupeEventsAux_all_seen v _ (fun e he =>
      mem_seenAfter.mpr (Or.inr ⟨e, he, rfl⟩))]
  simp

theorem mergeLoop2_noop :
    ∀ (l acc : ServerLogs),
      (∀ p ∈ l, findVal acc p.1 = some p.2 ∧ p.2 ≠ [] ∧ (p.2.map eventKey).Nodup) →
      mergeLoop2 acc l = acc
  | [], acc, _ => rfl
  | (k, v) :: rest, acc, h => by
    obtain ⟨hfind, hv, hnd⟩ := h (k, v) (List.mem_cons_self _ _)
    have hlook : lookupList acc k = v := by
      unfold lookupList
      rw [hfind]
      rfl
    rw [mergeLoop2, if_neg (by simpa using hv), hlook, dedupe_self_append hnd,
      setKey_eq_self hfind]
    exact mergeLoop2_noop rest acc (fun p hp => h p (List.mem_cons_of_mem _ hp))

/-- C5 (counterexample): merging a mapping with itself is not content
preserving when a service list carries two events with the same dedup
key: the merged list is deduplicated while the original is not. -/
theorem C5_counterexample :
    lookupList
        (mergeServerLogs
          [("svc", [ { timestamp := "t", status := none, wall_time_ms := 0 }
                   , { timestamp := "t", status := none, wall_time_ms := 0 } ])]
          [("svc", [ { timestamp := "t", status := none, wall_time_ms := 0 }
                   , { timestamp := "t", status := none, wall_time_ms := 0 } ])])
        "svc"
      = [ { timestamp := "t", status := none, wall_time_ms := 0 } ] ∧
    lookupList
        [("svc", [ ({ timestamp := "t", status := none, wall_time_ms := 0 } : ServerLogEvent)
                 , { timestamp := "t", status := none, wall_time_ms := 0 } ])]
        "svc"
      = [ { timestamp := "t", status := none, wall_time_ms := 0 }
        , { timestamp := "t", status := none, wall_time_ms := 0 } ] ∧
    [ ({ timestamp := "t", status := none, wall_time_ms := 0 } : ServerLogEvent) ] ≠
      [ { timestamp := "t", status := none, wall_time_ms := 0 }
      , { timestamp := "t", status := none, wall_time_ms := 0 } ] := by
  refine ⟨?_, ?_, ?_⟩ <;> decide

/-- C5 (amended): merging a mapping with itself is the identity for
every mapping whose per-service lists are non-empty and free of
key-duplicate events (and whose service keys are unique, the object
invariant); on such mappings merge(X, X) = X with the same keys and the
same lists.  Without those side conditions self-merge prunes empty
entries and deduplicates lists. -/
theorem C5_merge_self (X : ServerLogs) (hkeys : (X.map Prod.fst).Nodup)
    (hne : ∀ p ∈ X, p.2 ≠ []) (hdup : ∀ p ∈ X, (p.2.map eventKey).Nodup) :
    mergeServerLogs X X = X := by
  unfold mergeServerLogs
  rw [mergeLoop1_copy X [] hkeys hne (by simp), List.nil_append]
  exact mergeLoop2_noop X X
    (fun p hp => ⟨findVal_of_mem_nodup hkeys p hp, hne p hp, hdup p hp⟩)

theorem C5_merge_self_witness :
    mergeServerLogs
        [("svc", [ { timestamp := "t", status := some 200, wall_time_ms := 1 } ])]
        [("svc", [ { timestamp := "t", status := some 200, wall_time_ms := 1 } ])]
      = [("svc", [ { timestamp := "t", status := some 200, wall_time_ms := 1 } ])] :=
  C5_merge_self
    [("svc", [ { timestamp := "t", status := some 200, wall_time_ms := 1 } ])]
    (by decide) (by decide) (by decide)

/-- C6: the merge is associative service-by-service (content-wise) on
mappings with unique service keys, and it is order-preserving: each
service of a merged mapping is a block of events kept from the existing
side followed by a block of events kept from the incoming side, each
block in its original relative order (a sublist of its side). -/
theorem C6_merge_assoc_order (A B C : ServerLogs)
    (hA : (A.map Prod.fst).Nodup) (hB : (B.map Prod.fst).Nodup)
    (hC : (C.map Prod.fst).Nodup) :
    (∀ k, lookupList (mergeServerLogs (mergeServerLogs A B) C) k =
      lookupList (mergeServerLogs A (mergeServerLogs B C)) k) ∧
    (∀ k, ∃ kept newer,
      lookupList (mergeServerLogs A B) k = kept ++ newer ∧
      kept.Sublist (lookupList A k) ∧ newer.Sublist (lookupList B k)) := by
  constructor
  · intro k
    rw [lookupList_mergeServerLogs _ _ (nodup_keys_mergeServerLogs A B) hC,
      lookupList_mergeServerLogs _ _ hA (nodup_keys_mergeServerLogs B C),
      lookupList_mergeServerLogs A B hA hB,
      lookupList_mergeServerLogs B C hB hC,
      mPoint_assoc]
  · intro k
    rw [lookupList_mergeServerLogs A B hA hB]
    by_cases hb : lookupList B k = []
    · exact ⟨lookupList A k, [], by simp [mPoint, hb], List.Sublist.refl _, by simp⟩
    · refine ⟨dedupeEventsRun (lookupList A k),
        dedupeEventsAux (seenAfter [] (lookupList A k)) (lookupList B k), ?_,
        dedupeEventsAux_sublist _ [], dedupeEventsAux_sublist _ _⟩
      simp only [mPoint, if_neg hb]
      exact dedupeEventsAux_append (lookupList A k) (lookupList B k) []

theorem C6_merge_assoc_order_witness :
    lookupList
        (mergeServerLogs
          (mergeServerLogs
            [("a", [ { timestamp := "t1", status := none, wall_time_ms := 0 } ])]
            [ ("a", [ { timestamp := "t2", status := none, wall_time_ms := 0 } ])
            , ("b", [ { timestamp := "t1", status := none, wall_time_ms := 0 } ]) ])
          [("b", [ { timestamp := "t2", status := none, wall_time_ms := 0 } ])])
        "a"
      =
      lookupList
        (mergeServerLogs
          [("a", [ { timestamp := "t1", status := none, wall_time_ms := 0 } ])]
          (mergeServerLogs
            [ ("a", [ { timestamp := "t2", status := none, wall_time_ms := 0 } ])
            , ("b", [ { timestamp := "t1", status := none, wall_time_ms := 0 } ]) ]
            [("b", [ { timestamp := "t2", status := none, wall_time_ms := 0 } ])]))
        "a" :=
  (C6_merge_assoc_order
      [("a", [ { timestamp := "t1", status := none, wall_time_ms := 0 } ])]
      [ ("a", [ { timestamp := "t2", status := none, wall_time_ms := 0 } ])
      , ("b", [ { timestamp := "t1", status := none, wall_time_ms := 0 } ]) ]
      [("b", [ { timestamp := "t2", status := none, wall_time_ms := 0 } ])]
      (by decide) (by decide) (by decide)).1 "a"

/-- C2 (counterexample): an event whose resolved trace id equals the
target but which carries no run-id candidate at all is dropped from the
strict result set, not kept — hasMatchingRun returns false on an empty
candidate set. -/
theorem C2_counterexample :
    strictWorkerEvents [{ metadata := some { traceId := some "t1" } }] [] "r1" "t1" = [] ∧
    getEventTraceId { metadata := some { traceId := some "t1" } } = some "t1" ∧
    obsRunCandidates { metadata := some { traceId := some "t1" } } = [] := by
  refine ⟨?_, ?_, ?_⟩ <;> decide

/-- C2 (amended): the strict result set of the per-worker trace query
contains exactly those deduplicated raw events whose resolved trace id
equals the target trace id and whose run-id candidate set is NON-EMPTY
with every member equal to the target run id; an event with no run-id
candidate is excluded. -/
theorem C2_strict_query_membership (structuredBatch : List ObservabilityEvent)
    (needleBatches : List (List ObservabilityEvent)) (evalRunId traceId : String)
    (e : ObservabilityEvent) :
    e ∈ strictWorkerEvents structuredBatch needleBatches evalRunId traceId ↔
      (e ∈ dedupeEventsObs (structuredBatch ++ needleBatches.flatten) ∧
        (getEventTraceId e = some traceId ∧
          (obsRunCandidates e ≠ [] ∧ ∀ c ∈ obsRunCandidates e, c = evalRunId))) := by
  have htrace : (hasMatchingTrace e traceId = true) ↔ getEventTraceId e = some traceId := by
    unfold hasMatchingTrace
    simp
  have hrun : (hasMatchingRun e evalRunId = true) ↔
      (obsRunCandidates e ≠ [] ∧ ∀ c ∈ obsRunCandidates e, c = evalRunId) := by
    unfold hasMatchingRun
    by_cases hc : obsRunCandidates e = []
    · simp [hc]
    · simp [hc, List.all_eq_true]
  unfold strictWorkerEvents
  rw [List.mem_filter]
  simp only [Bool.and_eq_true]
  exact and_congr Iff.rfl (and_congr htrace hrun)

theorem C2_strict_query_membership_witness :
    { metadata := some { traceId := some "t1" }
      source := some { run_id := some "r1" } } ∈
      strictWorkerEvents
        [{ metadata := some { traceId := some "t1" }
           source := some { run_id := some "r1" } }] [] "r1" "t1" :=
  (C2_strict_query_membership
      [{ metadata := some { traceId := some "t1" }
         source := some { run_id := some "r1" } }] [] "r1" "t1"
      { metadata := some { traceId := some "t1" }
        source := some { run_id := some "r1" } }).mpr (by decide)

theorem mem_ite_singleton {c s : String} {cond : Prop} [Decidable cond]
    (h : c ∈ (if cond then [s] else [])) : c = s := by
  split at h
  · simpa using h
  · simp at h

theorem assessTrace_fail_codes (t : TraceArtifact) :
    ∀ c ∈ (assessTrace t).fail_reasons,
      c ∈ ["MISSING_FANTASY_MCP", "MISSING_AUTH_WORKER",
           "TRACE_CONTAMINATION", "RUN_ID_MISMATCH"] := by
  intro c hc
  unfold assessTrace at hc
  simp only at hc
  rw [mem_sortStrings, mem_firstDedup] at hc
  simp only [List.mem_append] at hc
  rcases hc with ((h | h) | h) | h <;> rw [mem_ite_singleton h] <;> decide

theorem mem_codes_addReason :
    ∀ (bucket : List Reason) (code traceId c : String),
      c ∈ (addReason bucket code traceId).map Reason.code ↔
        c ∈ bucket.map Reason.code ∨ c = code
  | [], code, tid, c => by simp [addReason]
  | r :: rest, code, tid, c => by
    by_cases h : r.code = code
    · rw [addReason, if_pos h]
      by_cases ht : tid ∈ r.trace_ids
      · simp only [if_pos ht, List.map_cons, List.mem_cons, h]
        constructor
        · rintro (rfl | hm)
          · exact Or.inr rfl
          · exact Or.inl (Or.inr hm)
        · rintro ((rfl | hm) | rfl)
          · exact Or.inl rfl
          · exact Or.inr hm
          · exact Or.inl rfl
      · simp only [if_neg ht, List.map_cons, List.mem_cons, h]
        constructor
        · rintro (rfl | hm)
          · exact Or.inr rfl
          · exact Or.inl (Or.inr hm)
        · rintro ((rfl | hm) | rfl)
          · exact Or.inl rfl
          · exact Or.inr hm
          · exact Or.inl rfl
    · rw [addReason, if_neg h]
      simp only [List.map_cons, List.mem_cons, mem_codes_addReason rest code tid c,
        or_assoc]

theorem mem_bucketSet :
    ∀ (b : List Reason) (x r : Reason), r ∈ bucketSet b x → r ∈ b ∨ r = x
  | [], x, r => by
    intro h
    simp only [bucketSet, List.mem_singleton] at h
    exact Or.inr h
  | q :: rest, x, r => by
    intro h
    by_cases hq : q.code = x.code
    · rw [bucketSet, if_pos hq] at h
      rcases List.mem_cons.mp h with rfl | h
      · exact Or.inr rfl
      · exact Or.inl (List.mem_cons_of_mem _ h)
    · rw [bucketSet, if_neg hq] at h
      rcases List.mem_cons.mp h with rfl | h
      · exact Or.inl (List.mem_cons_self _ _)
      · rcases mem_bucketSet rest x r h with h | h
        · exact Or.inl (List.mem_cons_of_mem _ h)
        · exact Or.inr h

theorem mem_codes_bucketSet :
    ∀ (b : List Reason) (x : Reason) (c : String),
      c ∈ (bucketSet b x).map Reason.code ↔ c ∈ b.map Reason.code ∨ c = x.code
  | [], x, c => by simp [bucketSet]
  | q :: rest, x, c => by
    by_cases hq : q.code = x.code
    · rw [bucketSet, if_pos hq]
      simp only [List.map_cons, List.mem_cons, hq]
      constructor
      · rintro (rfl | hm)
        · exact Or.inr rfl
        · exact Or.inl (Or.inr hm)
      · rintro ((rfl | hm) | rfl)
        · exact Or.inl rfl
        · exact Or.inr hm
        · exact Or.inl rfl
    · rw [bucketSet, if_neg hq]
      simp only [List.map_cons, List.mem_cons, mem_codes_bucketSet rest x c, or_assoc]

theorem mem_codes_sortReasons {c : String} {l : List Reason} :
    c ∈ (sortReasonsByCode l).map Reason.code ↔ c ∈ l.map Reason.code :=
  ((List.perm_insertionSort _ l).map Reason.code).mem_iff

theorem mem_sortReasons {r : Reason} {l : List Reason} :
    r ∈ sortReasonsByCode l ↔ r ∈ l :=
  (List.perm_insertionSort _ l).mem_iff

theorem fold_addReason_codes (P : String → Prop) :
    ∀ (codes : List String) (b : List Reason) (tid : String),
      (∀ c ∈ b.map Reason.code, P c) → (∀ c ∈ codes, P c) →
      ∀ c ∈ (codes.foldl (fun b c => addReason b c tid) b).map Reason.code, P c
  | [], b, tid, hb, _ => hb
  | c₀ :: rest, b, tid, hb, hcodes => by
    simp only [List.foldl_cons]
    refine fold_addReason_codes P rest _ tid ?_
      (fun c hc => hcodes c (List.mem_cons_of_mem _ hc))
    intro c hc
    rcases (mem_codes_addReason b c₀ tid c).mp hc with h | rfl
    · exact hb c h
    · exact hcodes c (List.mem_cons_self _ _)

theorem fold_assess_codes (P : String → Prop) :
    ∀ (as : List TraceAssessment) (b : List Reason),
      (∀ c ∈ b.map Reason.code, P c) →
      (∀ a ∈ as, ∀ c ∈ a.fail_reasons, P c) →
      ∀ c ∈ (as.foldl
          (fun bucket a =>
            a.fail_reasons.foldl (fun bucket code => addReason bucket code a.trace_id) bucket)
          b).map Reason.code, P c
  | [], b, hb, _ => hb
  | a :: rest, b, hb, has => by
    simp only [List.foldl_cons]
    refine fold_assess_codes P rest _ ?_
      (fun a₂ ha₂ => has a₂ (List.mem_cons_of_mem _ ha₂))
    exact fold_addReason_codes P a.fail_reasons b a.trace_id hb
      (has a (List.mem_cons_self _ _))

/-- C3: the acceptance policy emits the DOWNSTREAM_COVERAGE_ESCALATION
hard-fail reason exactly when at least 2 assessed traces carry a
downstream missing-worker warning or the proportion of such traces is
strictly greater than 20 percent; any emitted escalation reason lists
exactly the sorted trace ids of the traces that contributed a
downstream warning; and in a run of 5 traces of which exactly 1
carries a downstream warning, no escalation reason is emitted. -/
theorem C3_downstream_escalation (summaryErrored : Nat) (traces : List TraceArtifact) :
    (("DOWNSTREAM_COVERAGE_ESCALATION" ∈
        (acceptFailReasons summaryErrored traces).map Reason.code) ↔
      (2 ≤ downstreamWarnTraceCount (traces.map assessTrace) ∨
        escalationRatio (downstreamWarnTraceCount (traces.map assessTrace))
          (traces.map assessTrace).length > 1 / 5)) ∧
    (∀ r ∈ acceptFailReasons summaryErrored traces,
      r.code = "DOWNSTREAM_COVERAGE_ESCALATION" →
      r.trace_ids = escalationTraceIds (traces.map assessTrace)) ∧
    (traces.length = 5 → downstreamWarnTraceCount (traces.map assessTrace) = 1 →
      "DOWNSTREAM_COVERAGE_ESCALATION" ∉
        (acceptFailReasons summaryErrored traces).map Reason.code) := by
  have hcodes₁ :
      ∀ c ∈ ((traces.map assessTrace).foldl
          (fun bucket a =>
            a.fail_reasons.foldl (fun bucket code => addReason bucket code a.trace_id) bucket)
          (if summaryErrored > 0 then [{ code := "RUN_HAS_ERRORS", trace_ids := [] }]
           else [])).map Reason.code,
      c ∈ ["MISSING_FANTASY_MCP", "MISSING_AUTH_WORKER", "TRACE_CONTAMINATION",
           "RUN_ID_MISMATCH", "RUN_HAS_ERRORS"] := by
    refine fold_assess_codes _ (traces.map assessTrace) _ ?_ ?_
    · intro c hc
      split at hc
      · simp only [List.map_cons, List.map_nil, List.mem_singleton] at hc
        rw [hc]
        decide
      · simp at hc
    · intro a ha c hc
      obtain ⟨t, _, rfl⟩ := List.mem_map.mp ha
      have := assessTrace_fail_codes t c hc
      simp only [List.mem_cons, List.mem_singleton] at this ⊢
      tauto
  have hdown : "DOWNSTREAM_COVERAGE_ESCALATION" ∉
      ["MISSING_FANTASY_MCP", "MISSING_AUTH_WORKER", "TRACE_CONTAMINATION",
       "RUN_ID_MISMATCH", "RUN_HAS_ERRORS"] := by decide
  have hiff :
      ("DOWNSTREAM_COVERAGE_ESCALATION" ∈
        (acceptFailReasons summaryErrored traces).map Reason.code) ↔
      escalationTriggered (downstreamWarnTraceCount (traces.map assessTrace))
        (traces.map assessTrace).length := by
    unfold acceptFailReasons
    simp only [mem_codes_sortReasons]
    by_cases hesc : escalationTriggered (downstreamWarnTraceCount (traces.map assessTrace))
        (traces.map assessTrace).length
    · rw [if_pos hesc]
      simp only [mem_codes_bucketSet]
      exact ⟨fun _ => hesc, fun _ => Or.inr trivial⟩
    · rw [if_neg hesc]
      constructor
      · intro h
        exact absurd (hcodes₁ _ h) hdown
      · intro h
        exact absurd h hesc
  refine ⟨?_, ?_, ?_⟩
  · rw [hiff]
    unfold escalationTriggered ESCALATION_MIN_TRACES
    exact Iff.rfl
  · intro r hr hcode
    unfold acceptFailReasons at hr
    rw [mem_sortReasons] at hr
    by_cases hesc : escalationTriggered (downstreamWarnTraceCount (traces.map assessTrace))
        (traces.map assessTrace).length
    · rw [if_pos hesc] at hr
      rcases mem_bucketSet _ _ _ hr with h | rfl
      · exact absurd (hcodes₁ r.code (hcode ▸ List.mem_map_of_mem Reason.code h))
          (hcode ▸ hdown)
      · rfl
    · rw [if_neg hesc] at hr
      exact absurd (hcodes₁ r.code (hcode ▸ List.mem_map_of_mem Reason.code hr))
        (hcode ▸ hdown)
  · intro hlen hcount h
    rw [hiff] at h
    rcases h with h | h
    · rw [hcount] at h
      simp [ESCALATION_MIN_TRACES] at h
    · rw [hcount, List.length_map, hlen] at h
      norm_num [escalationRatio] at h

theorem C3_downstream_escalation_witness :
    "DOWNSTREAM_COVERAGE_ESCALATION" ∉
      (acceptFailReasons 0
        [ { run_id := "r", trace_id := "trace_a", scenario_id := "s1"
            , tool_calls := [{ tool_name := "get_roster"
                             , args := [("platform", JsValue.str "espn" none)] }]
            , server_logs := some
                [("fantasy-mcp", [{ timestamp := "t", status := some 200, wall_time_ms := 1 }])]
            , enrichment := none }
        , { run_id := "r", trace_id := "trace_b", scenario_id := "s2"
            , tool_calls := []
            , server_logs := some
                [("fantasy-mcp", [{ timestamp := "t", status := some 200, wall_time_ms := 1 }])]
            , enrichment := none }
        , { run_id := "r", trace_id := "trace_c", scenario_id := "s3"
            , tool_calls := []
            , server_logs := some
                [("fantasy-mcp", [{ timestamp := "t", status := some 200, wall_time_ms := 1 }])]
            , enrichment := none }
        , { run_id := "r", trace_id := "trace_d", scenario_id := "s4"
            , tool_calls := []
            , server_logs := some
                [("fantasy-mcp", [{ timestamp := "t", status := some 200, wall_time_ms := 1 }])]
            , enrichment := none }
        , { run_id := "r", trace_id := "trace_e", scenario_id := "s5"
            , tool_calls := []
            , server_logs := some
                [("fantasy-mcp", [{ timestamp := "t", status := some 200, wall_time_ms := 1 }])]
            , enrichment := none } ]).map Reason.code :=
  (C3_downstream_escalation 0
    [ { run_id := "r", trace_id := "trace_a", scenario_id := "s1"
        , tool_calls := [{ tool_name := "get_roster"
                         , args := [("platform", JsValue.str "espn" none)] }]
        , server_logs := some
            [("fantasy-mcp", [{ timestamp := "t", status := some 200, wall_time_ms := 1 }])]
        , enrichment := none }
    , { run_id := "r", trace_id := "trace_b", scenario_id := "s2"
        , tool_calls := []
        , server_logs := some
            [("fantasy-mcp", [{ timestamp := "t", status := some 200, wall_time_ms := 1 }])]
        , enrichment := none }
    , { run_id := "r", trace_id := "trace_c", scenario_id := "s3"
        , tool_calls := []
        , server_logs := some
            [("fantasy-mcp", [{ timestamp := "t", status := some 200, wall_time_ms := 1 }])]
        , enrichment := none }
    , { run_id := "r", trace_id := "trace_d", scenario_id := "s4"
        , tool_calls := []
        , server_logs := some
            [("fantasy-mcp", [{ timestamp := "t", status := some 200, wall_time_ms := 1 }])]
        , enrichment := none }
    , { run_id := "r", trace_id := "trace_e", scenario_id := "s5"
        , tool_calls := []
        , server_logs := some
            [("fantasy-mcp", [{ timestamp := "t", status := some 200, wall_time_ms := 1 }])]
        , enrichment := none } ]).2.2 (by decide) (by decide)

end FlaimEval
